import Mathlib

/-!
# Verification of the task.md metadata codec, task entity and statistics

Shallow embedding of `src/task_lib/task.py` and the statistics aggregation of
`src/task_lib/task_manager.py`.  Python strings are modelled as `List Char`;
the two annotation regexes `\[tag:.*?\]` and `\[due:.*?\]` are modelled by
explicit scanning functions with the exact lazy-match semantics (`findall`
scans the whole line, non-overlapping, the lazy `.*?` stops at the first `]`
and cannot cross a newline; `match` anchors at the start of the line).
`datetime.strptime(s, '%Y-%m-%d')` is modelled by `parseDate` following
CPython's `_strptime` regex (`%Y` is exactly four digits, `%m`/`%d` are
`1[0-2]|0[1-9]|[1-9]` resp. `3[01]|[12]\d|0[1-9]|[1-9]` with trailing-input
rejection) plus the calendar validation done by the `datetime` constructor.
`strftime('%Y-%m-%d')` is modelled zero-padded, per the documented Python
behaviour.  File I/O (reading, writing, moving files) is outside the model:
`from_file` is modelled on the raw text with title / lane / path supplied,
exactly as the source derives them from the file location.
-/

set_option maxHeartbeats 1000000

namespace TaskMd

/-- Python strings are modelled as lists of characters. -/
abbrev Str := List Char

/-- Turn a Lean string literal into the model's string type. -/
def lit (s : String) : Str := s.data

/-- The ASCII whitespace stripped by Python's `str.strip()`:
space, tab, newline, carriage return, vertical tab, form feed. -/
def isPySpace (c : Char) : Bool :=
  c = ' ' || c = '\t' || c = '\n' || c = '\r' || c = '\x0b' || c = '\x0c'

/-- Python `s.lstrip()`. -/
def lstrip (s : Str) : Str := s.dropWhile isPySpace

/-- Python `s.rstrip()`. -/
def rstrip (s : Str) : Str := (s.reverse.dropWhile isPySpace).reverse

/-- Python `s.strip()`. -/
def pyStrip (s : Str) : Str := rstrip (lstrip s)

/-- Python `s.split(sep)` for a one-character separator: all segments,
empty segments kept, `"".split(sep) == [""]`. -/
def splitOnChar (sep : Char) : Str → List Str
  | [] => [[]]
  | c :: rest =>
    if c = sep then [] :: splitOnChar sep rest
    else
      match splitOnChar sep rest with
      | [] => [[c]]
      | h :: t => (c :: h) :: t

/-- `content.split('\n')` as used throughout `task.py`. -/
def splitLines (s : Str) : List Str := splitOnChar '\n' s

/-- `'\n'.join(lines)`. -/
def joinLines : List Str → Str
  | [] => []
  | l :: [] => l
  | l :: l2 :: ls => l ++ '\n' :: joinLines (l2 :: ls)

/-- Python `sub in s` (substring containment). -/
def containsSub (sub : Str) : Str → Bool
  | [] => sub.isEmpty
  | c :: rest => sub.isPrefixOf (c :: rest) || containsSub sub rest

/-- The lazy tail `.*?\]` of both annotation regexes: the characters up to the
first `]`, failing if a newline (which `.` cannot match) or the end of the
string comes first.  Returns the matched inner text and the remainder after
the `]`. -/
def upToRB : Str → Option (Str × Str)
  | [] => none
  | c :: rest =>
    if c = ']' then some ([], rest)
    else if c = '\n' then none
    else
      match upToRB rest with
      | some (v, r) => some (c :: v, r)
      | none => none

/-- `re.findall` of a pattern `pre + ".*?]"` (i.e. `\[tag:.*?\]` with
`pre = "[tag:"`): scan left to right, at each position try to match the
literal prefix and then the lazy tail; matches are non-overlapping, the scan
resumes after each match. -/
def findallPat (pre : Str) : Str → List Str
  | [] => []
  | c :: rest =>
    if pre.isPrefixOf (c :: rest) then
      match h : upToRB ((c :: rest).drop pre.length) with
      | some (v, r) => (pre ++ v ++ [ ']' ]) :: findallPat pre r
      | none => findallPat pre rest
    else findallPat pre rest
termination_by s => s.length
decreasing_by
  · have key : ∀ (s : Str) (v r : Str), upToRB s = some (v, r) → r.length < s.length := by
      intro s
      induction s with
      | nil => intro v r hvr; simp [upToRB] at hvr
      | cons a as ih =>
        intro v r hvr
        simp only [upToRB] at hvr
        by_cases ha : a = ']'
        · simp [ha] at hvr
          simp [← hvr.2]
        · by_cases hn : a = '\n'
          · simp [ha, hn] at hvr
          · simp [ha, hn] at hvr
            cases hu : upToRB as with
            | none => rw [hu] at hvr; simp at hvr
            | some p =>
              rw [hu] at hvr
              simp at hvr
              have := ih p.1 p.2 (by rw [hu])
              simp [← hvr.2]
              omega
    have hlen := key _ _ _ h
    have hdrop : ((c :: rest).drop pre.length).length ≤ (c :: rest).length := by
      simp [List.length_drop]
    simp only [List.length_cons] at *
    omega
  all_goals simp

/-- The literal prefix of the tag-annotation regex `\[tag:.*?\]`. -/
def tagPre : Str := lit "[tag:"

/-- The literal prefix of the due-date regex `\[due:.*?\]`. -/
def duePre : Str := lit "[due:"

/-- `tag_re.findall(line)`. -/
def tag_re_findall (s : Str) : List Str := findallPat tagPre s

/-- `date_line_re.findall(line)`. -/
def date_line_re_findall (s : Str) : List Str := findallPat duePre s

/-- `re.match` of a pattern `pre + ".*?]"` anchored at the start of the line:
the literal prefix must be at position 0 and a `]` must follow before any
newline. -/
def matchPat (pre : Str) (s : Str) : Bool :=
  pre.isPrefixOf s && (upToRB (s.drop pre.length)).isSome

/-- `tag_re.match(line)` as a Boolean. -/
def tag_re_match (s : Str) : Bool := matchPat tagPre s

/-- `date_line_re.match(line)` as a Boolean. -/
def date_line_re_match (s : Str) : Bool := matchPat duePre s

/-- `c` is one of the characters stripped by `.strip('[]')`. -/
def isBracket (c : Char) : Bool := c = '[' || c = ']'

/-- Python `m.strip('[]')`. -/
def stripBrackets (s : Str) : Str :=
  ((s.dropWhile isBracket).reverse.dropWhile isBracket).reverse

/-- The value extracted from a regex match in `from_file`:
`m.strip('[]').split(":")[1].strip()`. -/
def annotValue (m : Str) : Str :=
  pyStrip ((splitOnChar ':' (stripBrackets m)).getD 1 [])

/-! ## Dates: `datetime.strptime(s, '%Y-%m-%d')` and `strftime('%Y-%m-%d')` -/

/-- A calendar date as carried by the `datetime` field (time part unused). -/
structure PyDate where
  year : Nat
  month : Nat
  day : Nat
deriving DecidableEq, Repr

/-- Numeric value of an ASCII digit. -/
def digitVal (c : Char) : Option Nat :=
  if 48 ≤ c.toNat ∧ c.toNat ≤ 57 then some (c.toNat - 48) else none

/-- The ASCII digit for `n < 10`. -/
def digitChar (n : Nat) : Char := Char.ofNat (48 + n)

/-- Gregorian leap year, as implemented by `datetime`. -/
def isLeap (y : Nat) : Bool := (y % 4 == 0 && y % 100 != 0) || y % 400 == 0

/-- Days in a month, as validated by the `datetime` constructor. -/
def daysInMonth (y m : Nat) : Nat :=
  if m = 2 then (if isLeap y then 29 else 28)
  else if m = 4 ∨ m = 6 ∨ m = 9 ∨ m = 11 then 30 else 31

/-- The dates representable by a `datetime` built from `%Y-%m-%d` input. -/
def PyDate.Valid (d : PyDate) : Prop :=
  1 ≤ d.year ∧ d.year ≤ 9999 ∧ 1 ≤ d.month ∧ d.month ≤ 12 ∧
    1 ≤ d.day ∧ d.day ≤ daysInMonth d.year d.month

instance (d : PyDate) : Decidable d.Valid := by
  unfold PyDate.Valid
  infer_instance

/-- The `%d` field of `_strptime`: `3[01]|[12]\d|0[1-9]|[1-9]`, in alternation
order, followed by strptime's trailing-input check (`%d` is last in the
format, so anything left over raises `ValueError`). -/
def parseDay : Str → Option Nat
  | c :: [] =>
    match digitVal c with
    | some v => if 1 ≤ v then some v else none
    | none => none
  | c1 :: c2 :: [] =>
    match digitVal c1, digitVal c2 with
    | some v1, some v2 =>
      if v1 = 3 then (if v2 ≤ 1 then some (30 + v2) else none)
      else if v1 = 1 ∨ v1 = 2 then some (10 * v1 + v2)
      else if v1 = 0 then (if 1 ≤ v2 then some v2 else none)
      else none
    | _, _ => none
  | _ => none

/-- The `%m-` and `%d` part of the format: month per `1[0-2]|0[1-9]|[1-9]`
(with regex backtracking, which never rescues a failed two-digit match here
because the fallback one-digit month would need a `-` where a digit stands),
then the literal `-`, then the day. -/
def parseMD : Str → Option (Nat × Nat)
  | '1' :: '-' :: r => (parseDay r).map (fun d => (1, d))
  | '1' :: c :: r =>
    match digitVal c with
    | some v =>
      if v ≤ 2 then
        match r with
        | '-' :: r2 => (parseDay r2).map (fun d => (10 + v, d))
        | _ => none
      else none
    | none => none
  | '0' :: c :: r =>
    match digitVal c, r with
    | some v, '-' :: r2 => if 1 ≤ v then (parseDay r2).map (fun d => (v, d)) else none
    | _, _ => none
  | c :: '-' :: r =>
    match digitVal c with
    | some v => if 2 ≤ v then (parseDay r).map (fun d => (v, d)) else none
    | none => none
  | _ => none

/-- `datetime.strptime(s, '%Y-%m-%d')`, returning `none` on `ValueError`:
`%Y` is exactly four digits, then `-`, then month and day, then the calendar
validation performed by the `datetime` constructor (`MINYEAR = 1`). -/
def parseDate (s : Str) : Option PyDate :=
  match s with
  | c1 :: c2 :: c3 :: c4 :: '-' :: rest =>
    match digitVal c1, digitVal c2, digitVal c3, digitVal c4 with
    | some a, some b, some c, some d =>
      match parseMD rest with
      | some (m, dd) =>
        let y := 1000 * a + 100 * b + 10 * c + d
        if 1 ≤ y ∧ dd ≤ daysInMonth y m then some ⟨y, m, dd⟩ else none
      | none => none
    | _, _, _, _ => none
  | _ => none

/-- Two-digit zero-padded decimal (`%m`, `%d` of `strftime`). -/
def pad2 (n : Nat) : Str := [digitChar (n / 10 % 10), digitChar (n % 10)]

/-- Four-digit zero-padded decimal (`%Y` of `strftime`, documented Python
behaviour). -/
def pad4 (n : Nat) : Str :=
  [digitChar (n / 1000 % 10), digitChar (n / 100 % 10),
   digitChar (n / 10 % 10), digitChar (n % 10)]

/-- `due_date.strftime('%Y-%m-%d')`. -/
def formatDate (d : PyDate) : Str := pad4 d.year ++ '-' :: pad2 d.month ++ '-' :: pad2 d.day

/-- The characters that can occur in a formatted date. -/
def dateChars : List Char := ['0', '1', '2', '3', '4', '5', '6', '7', '8', '9', '-']

/-! ## The Task entity (`task.py`) -/

/-- The `Task` dataclass.  `path` is `Optional`: `from_dict` constructs tasks
with `path=None`. -/
structure Task where
  title : Str
  content : Str
  lane : Str
  path : Option Str
  tags : Option (List Str) := none
  due_date : Option PyDate := none
deriving DecidableEq, Repr

/-- `itertools`-free model of `[... for tag in matches]` flattening over all
lines: list concat-map in line order. -/
def concatMap (f : α → List β) : List α → List β
  | [] => []
  | a :: as => f a ++ concatMap f as

/-- The tag extraction loop of `Task.from_file`: for each line, every
`tag_re.findall` match contributes `tag.strip('[]').split(":")[1].strip()`. -/
def extract_tags (raw : Str) : List Str :=
  concatMap (fun l => (tag_re_findall l).map annotValue) (splitLines raw)

/-- One line of the due-date extraction loop of `Task.from_file`: if the line
has a due match, its first match's value is parsed; a successful parse
overwrites the accumulator, a `ValueError` leaves it unchanged. -/
def due_step (acc : Option PyDate) (line : Str) : Option PyDate :=
  match date_line_re_findall line with
  | [] => acc
  | m :: _ =>
    match parseDate (annotValue m) with
    | some d => some d
    | none => acc

/-- The due-date extraction loop of `Task.from_file` over all lines. -/
def extract_due (raw : Str) : Option PyDate := (splitLines raw).foldl due_step none

/-- `Task._remove_tags_from_content`: drop the lines where `tag_re.match`
fires, rejoin, and `strip()` the result. -/
def remove_tags_from_content (c : Str) : Str :=
  pyStrip (joinLines ((splitLines c).filter (fun l => !tag_re_match l)))

/-- `Task._remove_date_line_from_content`: drop the lines where
`date_line_re.match` fires and rejoin (no strip). -/
def remove_date_line_from_content (c : Str) : Str :=
  joinLines ((splitLines c).filter (fun l => !date_line_re_match l))

/-- The content clean-up applied by both `from_file` and `from_dict`:
tags removal first, then date-line removal. -/
def decode_content (raw : Str) : Str :=
  remove_date_line_from_content (remove_tags_from_content raw)

/-- `Task.from_file` on the raw file text; `title`, `lane` and `path` stand
for `file_path.stem`, `file_path.parent.name` and `file_path`. -/
def from_file (raw title lane path : Str) : Task :=
  { title := title
    content := decode_content raw
    lane := lane
    path := some path
    tags := some (extract_tags raw)
    due_date := extract_due raw }

/-- A dictionary argument of `Task.from_dict`: each field is present or
absent (`tags` via `.get('tags', None)`, `due_date` via `'due_date' in`). -/
structure TaskDict where
  title : Option Str := none
  content : Option Str := none
  lane : Option Str := none
  tags : Option (List Str) := none
  due_date : Option Str := none
deriving DecidableEq, Repr

/-- `Task.from_dict`: parse `due_date` if the key is present (a `ValueError`
yields `None`), fail (return `None`) iff `title`, `content` or `lane` is
missing (`KeyError`), set `path=None`, then run the content clean-up. -/
def from_dict (d : TaskDict) : Option Task :=
  let due : Option PyDate :=
    match d.due_date with
    | some s => parseDate s
    | none => none
  match d.title, d.content, d.lane with
  | some ti, some co, some la =>
    some { title := ti
           content := decode_content co
           lane := la
           path := none
           tags := d.tags
           due_date := due }
  | _, _, _ => none

/-- The encoded due-date line `[due:YYYY-MM-DD]`. -/
def due_line_str (d : PyDate) : Str := lit "[due:" ++ formatDate d ++ [ ']' ]

/-- `Task._create_date_line_str`: `[due:YYYY-MM-DD]` when a due date is set
(a `datetime` is always truthy). -/
def create_date_line_str (t : Task) : Option Str :=
  match t.due_date with
  | some d => some (due_line_str d)
  | none => none

/-- One encoded tag line `[tag:<value>]`. -/
def tag_line_str (tg : Str) : Str := lit "[tag:" ++ tg ++ [ ']' ]

/-- `Task._create_tag_lines_str`: `None` when `self.tags` is falsy (`None` or
empty), else the tag lines joined by single newlines. -/
def create_tag_lines_str (tags : Option (List Str)) : Option Str :=
  match tags with
  | none => none
  | some [] => none
  | some ts => some (joinLines (ts.map tag_line_str))

/-- `Task.add_date_line_to_task_content(content)`: prepend the date line
(separated by a blank line) to the argument if truthy, else to
`self.content`. -/
def add_date_line_to_task_content (t : Task) (c : Option Str) : Str :=
  match create_date_line_str t with
  | none =>
    match c with
    | some s => if s = [] then t.content else s
    | none => t.content
  | some dl =>
    match c with
    | some s => if s = [] then dl ++ lit "\n\n" ++ t.content else dl ++ lit "\n\n" ++ s
    | none => dl ++ lit "\n\n" ++ t.content

/-- `Task.add_tag_lines_to_task_content(content)`: prepend the tag lines
(separated by a blank line) to the argument if truthy, else to
`self.content`. -/
def add_tag_lines_to_task_content (t : Task) (c : Option Str) : Str :=
  match create_tag_lines_str t.tags with
  | none =>
    match c with
    | some s => if s = [] then t.content else s
    | none => t.content
  | some tl =>
    match c with
    | some s => if s = [] then tl ++ lit "\n\n" ++ t.content else tl ++ lit "\n\n" ++ s
    | none => tl ++ lit "\n\n" ++ t.content

/-- The text written by `Task.to_file`:
`add_tag_lines_to_task_content(add_date_line_to_task_content())`. -/
def to_file_content (t : Task) : Str :=
  add_tag_lines_to_task_content t (some (add_date_line_to_task_content t none))

/-- A tag value that the codec transports faithfully: no colon (the extractor
keeps only the piece between the first two colons), no `]` (which ends the
lazy match early), no newline (a tag line must be a single line), equal to its
own trim (the extractor strips the value), and not ending in `[` (eaten by
`strip('[]')`). -/
def CleanTag (tg : Str) : Prop :=
  ':' ∉ tg ∧ ']' ∉ tg ∧ '\n' ∉ tg ∧ pyStrip tg = tg ∧ tg.getLast? ≠ some '['

instance (tg : Str) : Decidable (CleanTag tg) := by
  unfold CleanTag
  infer_instance

/-! ## The split transformer -/

/-- The literal split marker. -/
def splitMarkerStr : Str := lit "[[split]]"

/-- Python `s.split(sep)` for a multi-character separator: non-overlapping,
left to right, empty segments kept. -/
def splitOnList (sep : Str) : Str → List Str
  | [] => [[]]
  | c :: rest =>
    if sep.isPrefixOf (c :: rest) then
      [] :: splitOnList sep (rest.drop (sep.length - 1))
    else
      match splitOnList sep rest with
      | [] => [[c]]
      | h :: t => (c :: h) :: t
termination_by s => s.length
decreasing_by
  all_goals simp [List.length_drop]
  all_goals omega

/-- The number of non-overlapping occurrences of `sep`, counted by the same
left-to-right scan as `splitOnList`. -/
def countSub (sep : Str) : Str → Nat
  | [] => 0
  | c :: rest =>
    if sep.isPrefixOf (c :: rest) then
      countSub sep (rest.drop (sep.length - 1)) + 1
    else countSub sep rest
termination_by s => s.length
decreasing_by
  all_goals simp [List.length_drop]
  all_goals omega

/-- Python `enumerate(parts, start)`. -/
def enumFrom (start : Nat) : List α → List (Nat × α)
  | [] => []
  | a :: as => (start, a) :: enumFrom (start + 1) as

/-- `str(n)` for the fragment numbering (decimal). -/
def natStr (n : Nat) : Str :=
  if h : n < 10 then [digitChar n] else natStr (n / 10) ++ [digitChar (n % 10)]
decreasing_by
  exact Nat.div_lt_self (by omega) (by omega)

/-- `pathlib`'s `path.parent`: the characters before the last `/`, or `none`
for a single-component path (whose parent is `.`). -/
def pathParent (p : Str) : Option Str :=
  match p.reverse.dropWhile (fun c => !(c = '/')) with
  | [] => none
  | _ :: rest => some rest.reverse

/-- `self.path.parent / name`. -/
def childPath (p name : Str) : Str :=
  match pathParent p with
  | none => name
  | some dir => dir ++ '/' :: name

/-- `Task.split`.  When the marker is absent the original task is returned.
When it is present, each fragment's path is derived from `self.path.parent`;
a task with `path=None` then raises `AttributeError`, modelled as `none`. -/
def Task.split (t : Task) : Option (List Task) :=
  if containsSub splitMarkerStr t.content then
    match t.path with
    | none => none
    | some p =>
      let parts := splitOnList splitMarkerStr t.content
      let common_tags :=
        (match t.tags with
         | some ts => ts
         | none => []) ++ [lit "multi-story feature"]
      some ((enumFrom 1 parts).map (fun ip =>
        { title := natStr ip.1 ++ '-' :: t.title
          content := pyStrip ip.2
          lane := t.lane
          path := some (childPath p (natStr ip.1 ++ '-' :: t.title ++ lit ".md"))
          tags := some common_tags
          due_date := t.due_date }))
  else some [t]

/-! ## Statistics (`task_manager.py`) -/

/-- The dictionary returned by `TaskManager.calculate_statistics`: exactly the
keys `num_lanes`, `tasks_per_lane` and `tag_counts` (there is no due-date
entry). -/
structure Stats where
  num_lanes : Nat
  tasks_per_lane : List (Str × Nat)
  tag_counts : List (Str × Nat)
deriving DecidableEq, Repr

/-- `tag_counts[tag] = tag_counts.get(tag, 0) + 1` on an insertion-ordered
dict modelled as an association list. -/
def bumpCount (m : List (Str × Nat)) (k : Str) : List (Str × Nat) :=
  match m with
  | [] => [(k, 1)]
  | kv :: rest => if kv.1 = k then (kv.1, kv.2 + 1) :: rest else kv :: bumpCount rest k

/-- The tag-counting loop: `for task in tasks: for tag in task.tags: ...`.
Iterating over `task.tags` when it is `None` raises `TypeError`, modelled as
`none`. -/
def tally (acc : List (Str × Nat)) : List Task → Option (List (Str × Nat))
  | [] => some acc
  | t :: ts =>
    match t.tags with
    | none => none
    | some tgs => tally (tgs.foldl bumpCount acc) ts

/-- `TaskManager.calculate_statistics`, given the task collection grouped by
lane (the pure part, `get_all_tasks`' directory walk being external I/O). -/
def calculate_statistics (tasks_by_lane : List (Str × List Task)) : Option Stats :=
  match tally [] (concatMap (fun x => x.2) tasks_by_lane) with
  | some tc =>
    some { num_lanes := tasks_by_lane.length
           tasks_per_lane := tasks_by_lane.map (fun x => (x.1, x.2.length))
           tag_counts := tc }
  | none => none

/-! ## Basic facts about stripping -/

theorem dropWhile_append_eq (p : Char → Bool) (a b : Str) :
    (a ++ b).dropWhile p =
      if a.dropWhile p = [] then b.dropWhile p else a.dropWhile p ++ b := by
  induction a with
  | nil => simp
  | cons c cs ih =>
    by_cases h : p c
    · simpa [List.dropWhile_cons, h] using ih
    · simp [List.dropWhile_cons, h]

theorem dropWhile_idem (p : Char → Bool) (s : Str) :
    (s.dropWhile p).dropWhile p = s.dropWhile p := by
  induction s with
  | nil => rfl
  | cons c cs ih =>
    by_cases h : p c
    · simpa [List.dropWhile_cons, h] using ih
    · simp [List.dropWhile_cons, h]

theorem dropWhile_eq_self_of_all (p : Char → Bool) (s : Str)
    (h : ∀ c ∈ s, p c = false) : s.dropWhile p = s := by
  cases s with
  | nil => rfl
  | cons c cs => simp [List.dropWhile_cons, h c (by simp)]

theorem lstrip_cons_space {c : Char} (s : Str) (h : isPySpace c = true) :
    lstrip (c :: s) = lstrip s := by
  simp [lstrip, List.dropWhile_cons, h]

theorem lstrip_cons_keep {c : Char} (s : Str) (h : isPySpace c = false) :
    lstrip (c :: s) = c :: s := by
  simp [lstrip, List.dropWhile_cons, h]

theorem rstrip_append (a b : Str) :
    rstrip (a ++ b) = if rstrip b = [] then rstrip a else a ++ rstrip b := by
  unfold rstrip
  rw [List.reverse_append, dropWhile_append_eq]
  by_cases h : b.reverse.dropWhile isPySpace = []
  · simp [h]
  · have : ¬ (b.reverse.dropWhile isPySpace).reverse = [] := by
      simpa using h
    simp [h, this]

theorem rstrip_eq_nil_iff (s : Str) : rstrip s = [] ↔ ∀ c ∈ s, isPySpace c = true := by
  unfold rstrip
  rw [List.reverse_eq_nil_iff, List.dropWhile_eq_nil_iff]
  constructor
  · intro h c hc
    exact h c (by simpa using hc)
  · intro h c hc
    exact h c (by simpa using hc)

theorem lstrip_eq_nil_iff (s : Str) : lstrip s = [] ↔ ∀ c ∈ s, isPySpace c = true := by
  unfold lstrip
  rw [List.dropWhile_eq_nil_iff]

theorem pyStrip_eq_nil_of_rstrip (s : Str) (h : rstrip s = []) : pyStrip s = [] := by
  have h1 : lstrip s = [] := by
    rw [lstrip_eq_nil_iff]
    exact (rstrip_eq_nil_iff s).mp h
  simp [pyStrip, h1]
  rfl

theorem rstrip_eq_self_of_all (s : Str) (h : ∀ c ∈ s, isPySpace c = false) :
    rstrip s = s := by
  unfold rstrip
  rw [dropWhile_eq_self_of_all _ _ (fun c hc => h c (by simpa using hc))]
  simp

theorem lstrip_eq_self_of_all (s : Str) (h : ∀ c ∈ s, isPySpace c = false) :
    lstrip s = s := by
  unfold lstrip
  exact dropWhile_eq_self_of_all _ _ h

theorem pyStrip_eq_self_of_all (s : Str) (h : ∀ c ∈ s, isPySpace c = false) :
    pyStrip s = s := by
  simp [pyStrip, lstrip_eq_self_of_all s h, rstrip_eq_self_of_all s h]

theorem rstrip_idem (s : Str) : rstrip (rstrip s) = rstrip s := by
  unfold rstrip
  simp [dropWhile_idem]

theorem rstrip_cons (c : Char) (s : Str) :
    rstrip (c :: s) =
      if rstrip s = [] then (if isPySpace c then [] else [c]) else c :: rstrip s := by
  have := rstrip_append [c] s
  simp only [List.cons_append, List.nil_append] at this
  rw [this]
  by_cases h : rstrip s = []
  · simp [h]
    by_cases hc : isPySpace c
    · simp [hc, rstrip, List.dropWhile, List.dropWhile_cons]
    · simp [hc, rstrip, List.dropWhile, List.dropWhile_cons]
  · simp [h]

theorem lstrip_rstrip_comm (s : Str) : lstrip (rstrip s) = rstrip (lstrip s) := by
  induction s with
  | nil => rfl
  | cons c cs ih =>
    by_cases hc : isPySpace c = true
    · rw [rstrip_cons, lstrip_cons_space cs hc]
      by_cases h : rstrip cs = []
      · have h1 : lstrip cs = [] := by
          rw [lstrip_eq_nil_iff]
          exact (rstrip_eq_nil_iff cs).mp h
        simp [h, hc, h1]
        rfl
      · rw [if_neg h, lstrip_cons_space _ hc, ih]
    · have hc2 : isPySpace c = false := by simpa using hc
      rw [rstrip_cons, lstrip_cons_keep cs hc2]
      by_cases h : rstrip cs = []
      · rw [if_pos h, if_neg (by simp [hc2]), rstrip_cons, if_pos h, if_neg (by simp [hc2])]
        simp [lstrip_cons_keep, hc2]
      · rw [if_neg h, lstrip_cons_keep _ hc2, rstrip_cons, if_neg h]

theorem pyStrip_rstrip (s : Str) : pyStrip (rstrip s) = pyStrip s := by
  unfold pyStrip
  rw [lstrip_rstrip_comm, rstrip_idem]

theorem pyStrip_cons_space {c : Char} (s : Str) (h : isPySpace c = true) :
    pyStrip (c :: s) = pyStrip s := by
  unfold pyStrip
  rw [lstrip_cons_space s h]

theorem pyStrip_cons_keep {c : Char} (s : Str) (h : isPySpace c = false) :
    pyStrip (c :: s) = rstrip (c :: s) := by
  unfold pyStrip
  rw [lstrip_cons_keep s h]

/-! ## Facts about splitting on a character and joining lines -/

theorem splitOnChar_ne_nil (sep : Char) (s : Str) : splitOnChar sep s ≠ [] := by
  induction s with
  | nil => simp [splitOnChar]
  | cons c cs ih =>
    by_cases h : c = sep
    · simp [splitOnChar, h]
    · simp only [splitOnChar, if_neg h]
      cases hs : splitOnChar sep cs with
      | nil => simp
      | cons a as => simp

theorem splitOnChar_of_not_mem (sep : Char) (s : Str) (h : sep ∉ s) :
    splitOnChar sep s = [s] := by
  induction s with
  | nil => rfl
  | cons c cs ih =>
    have hc : ¬ c = sep := by
      intro hh
      exact h (by simp [hh])
    have ih2 := ih (fun hm => h (by simp [hm]))
    simp [splitOnChar, hc, ih2]

theorem splitOnChar_append_sep (sep : Char) (a b : Str) (h : sep ∉ a) :
    splitOnChar sep (a ++ sep :: b) = a :: splitOnChar sep b := by
  induction a with
  | nil => simp [splitOnChar]
  | cons c cs ih =>
    have hc : ¬ c = sep := by
      intro hh
      exact h (by simp [hh])
    have ih2 := ih (fun hm => h (by simp [hm]))
    simp [splitOnChar, hc, ih2]

theorem mem_splitOnChar_not_mem (sep : Char) (s : Str) :
    ∀ l ∈ splitOnChar sep s, sep ∉ l := by
  induction s with
  | nil =>
    intro l hl
    simp [splitOnChar] at hl
    simp [hl]
  | cons c cs ih =>
    intro l hl
    by_cases h : c = sep
    · simp only [splitOnChar, if_pos h] at hl
      rcases List.mem_cons.mp hl with hl | hl
      · simp [hl]
      · exact ih l hl
    · simp only [splitOnChar, if_neg h] at hl
      cases hs : splitOnChar sep cs with
      | nil => exact absurd hs (splitOnChar_ne_nil sep cs)
      | cons a as =>
        rw [hs] at hl
        rcases List.mem_cons.mp hl with hl | hl
        · intro hm
          rw [hl] at hm
          rcases List.mem_cons.mp hm with hm | hm
          · exact h hm.symm
          · exact ih a (by simp [hs]) hm
        · exact ih l (by simp [hs, hl])

theorem splitOnChar_head_prefix (sep : Char) (s : Str) :
    ∀ h t, splitOnChar sep s = h :: t → h <+: s := by
  induction s with
  | nil =>
    intro h t hs
    simp [splitOnChar] at hs
    simp [hs.1]
  | cons c cs ih =>
    intro h t hs
    by_cases hc : c = sep
    · simp only [splitOnChar, if_pos hc, List.cons.injEq] at hs
      simp [← hs.1]
    · simp only [splitOnChar, if_neg hc] at hs
      cases h2 : splitOnChar sep cs with
      | nil => exact absurd h2 (splitOnChar_ne_nil sep cs)
      | cons a as =>
        rw [h2] at hs
        simp only [List.cons.injEq] at hs
        have := ih a as h2
        rw [← hs.1]
        exact List.cons_prefix_cons.mpr ⟨rfl, this⟩

theorem mem_splitOnChar_within (sep : Char) (s : Str) :
    ∀ l ∈ splitOnChar sep s, l <:+: s := by
  induction s with
  | nil =>
    intro l hl
    simp [splitOnChar] at hl
    simp [hl]
  | cons c cs ih =>
    intro l hl
    by_cases h : c = sep
    · simp only [splitOnChar, if_pos h] at hl
      rcases List.mem_cons.mp hl with hl | hl
      · simp [hl]
      · exact List.infix_cons (ih l hl)
    · simp only [splitOnChar, if_neg h] at hl
      cases hs : splitOnChar sep cs with
      | nil => exact absurd hs (splitOnChar_ne_nil sep cs)
      | cons a as =>
        rw [hs] at hl
        rcases List.mem_cons.mp hl with hl | hl
        · have ha : a <+: cs := splitOnChar_head_prefix sep cs a as hs
          rw [hl]
          exact (List.cons_prefix_cons.mpr ⟨rfl, ha⟩).isInfix
        · exact List.infix_cons (ih l (by simp [hs, hl]))

theorem joinLines_splitOnChar_nl (s : Str) : joinLines (splitOnChar '\n' s) = s := by
  induction s with
  | nil => rfl
  | cons c cs ih =>
    by_cases h : c = '\n'
    · simp only [splitOnChar, if_pos h]
      cases hs : splitOnChar '\n' cs with
      | nil => exact absurd hs (splitOnChar_ne_nil '\n' cs)
      | cons a as =>
        rw [hs] at ih
        simp [joinLines, ih, h]
    · simp only [splitOnChar, if_neg h]
      cases hs : splitOnChar '\n' cs with
      | nil => exact absurd hs (splitOnChar_ne_nil '\n' cs)
      | cons a as =>
        rw [hs] at ih
        cases as with
        | nil => simp [joinLines] at ih ⊢; rw [ih]
        | cons a2 as2 => simp [joinLines] at ih ⊢; rw [ih]

theorem joinLines_splitLines (s : Str) : joinLines (splitLines s) = s :=
  joinLines_splitOnChar_nl s

theorem splitLines_joinLines (ls : List Str) (h : ∀ l ∈ ls, '\n' ∉ l) (hne : ls ≠ []) :
    splitLines (joinLines ls) = ls := by
  induction ls with
  | nil => exact absurd rfl hne
  | cons a as ih =>
    cases as with
    | nil =>
      simp [joinLines, splitLines]
      exact splitOnChar_of_not_mem '\n' a (h a (by simp))
    | cons a2 as2 =>
      simp only [joinLines, splitLines]
      rw [splitOnChar_append_sep '\n' a _ (h a (by simp))]
      have := ih (fun l hl => h l (by simp at hl ⊢; tauto)) (by simp)
      simp only [splitLines] at this
      rw [this]

theorem splitLines_append_join (ls : List Str) (x : Str)
    (h : ∀ l ∈ ls, '\n' ∉ l) (hne : ls ≠ []) :
    splitLines (joinLines ls ++ '\n' :: x) = ls ++ splitLines x := by
  induction ls with
  | nil => exact absurd rfl hne
  | cons a as ih =>
    cases as with
    | nil =>
      simp only [joinLines, splitLines]
      rw [splitOnChar_append_sep '\n' a x (h a (by simp))]
      simp
    | cons a2 as2 =>
      simp only [joinLines, splitLines, List.append_assoc, List.cons_append]
      rw [splitOnChar_append_sep '\n' a _ (h a (by simp))]
      have := ih (fun l hl => h l (by simp at hl ⊢; tauto)) (by simp)
      simp only [splitLines] at this
      rw [this]
      simp

theorem splitLines_cons_nl (x : Str) : splitLines ('\n' :: x) = [] :: splitLines x := by
  simp [splitLines, splitOnChar]

/-! ## Substring containment and the annotation scans -/

theorem containsSub_characterization (sub s : Str) : containsSub sub s = true ↔ sub <:+: s := by
  induction s with
  | nil => simp [containsSub, List.isEmpty_iff]
  | cons c cs ih =>
    simp only [containsSub, Bool.or_eq_true, ih]
    rw [List.infix_cons_iff]
    constructor
    · rintro (h | h)
      · exact Or.inl (List.isPrefixOf_iff_prefix.mp h)
      · exact Or.inr h
    · rintro (h | h)
      · exact Or.inl (List.isPrefixOf_iff_prefix.mpr h)
      · exact Or.inr h

theorem containsSub_false_of_within (sub s t : Str)
    (h : containsSub sub s = false) (hi : t <:+: s) : containsSub sub t = false := by
  by_contra hc
  have : containsSub sub t = true := by
    cases hh : containsSub sub t with
    | false => exact absurd hh hc
    | true => rfl
  have := ((containsSub_characterization sub t).mp this).trans hi
  rw [(containsSub_characterization sub s).mpr this] at h
  exact absurd h (by simp)

theorem containsSub_eq_false_of_missing (sub s : Str) (c : Char)
    (hc : c ∈ sub) (hs : c ∉ s) : containsSub sub s = false := by
  cases h : containsSub sub s with
  | false => rfl
  | true =>
    have := ((containsSub_characterization sub s).mp h).subset hc
    exact absurd this hs

theorem tagPre_eq : tagPre = '[' :: 't' :: 'a' :: 'g' :: ':' :: [] := rfl

theorem duePre_eq : duePre = '[' :: 'd' :: 'u' :: 'e' :: ':' :: [] := rfl

theorem upToRB_append_rb (v rest : Str) (h1 : ']' ∉ v) (h2 : '\n' ∉ v) :
    upToRB (v ++ ']' :: rest) = some (v, rest) := by
  induction v with
  | nil => simp [upToRB]
  | cons c cs ih =>
    have hc1 : ¬ c = ']' := fun hh => h1 (by simp [hh])
    have hc2 : ¬ c = '\n' := fun hh => h2 (by simp [hh])
    have ih2 := ih (fun hm => h1 (by simp [hm])) (fun hm => h2 (by simp [hm]))
    simp [upToRB, hc1, hc2, ih2]

theorem findallPat_nil_of_not_contains (pre s : Str) (h : containsSub pre s = false) :
    findallPat pre s = [] := by
  induction s with
  | nil => simp [findallPat]
  | cons c cs ih =>
    rw [containsSub] at h
    have h1 : pre.isPrefixOf (c :: cs) = false := by
      cases hh : pre.isPrefixOf (c :: cs) with
      | false => rfl
      | true => rw [hh] at h; simp at h
    have h2 : containsSub pre cs = false := by
      cases hh : containsSub pre cs with
      | false => rfl
      | true => rw [hh] at h; simp at h
    rw [findallPat, if_neg (by simp [h1])]
    exact ih h2

theorem findallPat_annot_line (p : Char) (ps v : Str) (h1 : ']' ∉ v) (h2 : '\n' ∉ v) :
    findallPat (p :: ps) ((p :: ps) ++ v ++ [ ']' ]) = [(p :: ps) ++ v ++ [ ']' ]] := by
  have hsh : (p :: ps) ++ v ++ [ ']' ] = p :: (ps ++ (v ++ [ ']' ])) := by simp
  have hpre : (p :: ps).isPrefixOf (p :: (ps ++ (v ++ [ ']' ]))) = true := by
    rw [List.isPrefixOf_iff_prefix]
    rw [show p :: (ps ++ (v ++ [ ']' ])) = (p :: ps) ++ (v ++ [ ']' ]) by simp]
    exact List.prefix_append _ _
  have hdrop : (p :: (ps ++ (v ++ [ ']' ]))).drop (p :: ps).length = v ++ [ ']' ] := by
    rw [show p :: (ps ++ (v ++ [ ']' ])) = (p :: ps) ++ (v ++ [ ']' ]) by simp]
    exact List.drop_left _ _
  have hup : upToRB ((p :: (ps ++ (v ++ [ ']' ]))).drop (p :: ps).length) = some (v, []) := by
    rw [hdrop, show v ++ [ ']' ] = v ++ ']' :: [] from rfl]
    exact upToRB_append_rb v [] h1 h2
  rw [hsh, findallPat]
  rw [if_pos (by simp [hpre])]
  rw [hup]
  simp only [findallPat]
  rw [← hsh]

theorem matchPat_annot_line (pre v x : Str) (h1 : ']' ∉ v) (h2 : '\n' ∉ v) :
    matchPat pre (pre ++ (v ++ ']' :: x)) = true := by
  unfold matchPat
  rw [List.drop_left]
  simp [List.isPrefixOf_iff_prefix.mpr (List.prefix_append pre (v ++ ']' :: x)),
    upToRB_append_rb v x h1 h2]

theorem matchPat_false_of_not_pre (pre s : Str) (h : pre.isPrefixOf s = false) :
    matchPat pre s = false := by
  simp [matchPat, h]

theorem tagPre_not_prefixOf_due (x : Str) : tagPre.isPrefixOf ('[' :: 'd' :: x) = false := by
  simp [tagPre_eq, List.isPrefixOf]

theorem duePre_not_prefixOf_tag (x : Str) : duePre.isPrefixOf ('[' :: 't' :: x) = false := by
  simp [duePre_eq, List.isPrefixOf]

theorem tag_re_match_nil : tag_re_match [] = false := by
  simp [tag_re_match, matchPat, tagPre_eq, List.isPrefixOf]

theorem date_line_re_match_nil : date_line_re_match [] = false := by
  simp [date_line_re_match, matchPat, duePre_eq, List.isPrefixOf]

theorem tag_line_str_expand (tg : Str) :
    tag_line_str tg = '[' :: 't' :: 'a' :: 'g' :: ':' :: (tg ++ [ ']' ]) := by
  simp only [tag_line_str, List.append_assoc]
  rfl

theorem due_line_str_expand (d : PyDate) :
    due_line_str d = '[' :: 'd' :: 'u' :: 'e' :: ':' :: (formatDate d ++ [ ']' ]) := by
  simp only [due_line_str, List.append_assoc]
  rfl

/-! ## Character classes of formatted dates -/

theorem digitChar_mem_dateChars (n : Nat) (h : n < 10) : digitChar n ∈ dateChars := by
  interval_cases n <;> decide

theorem formatDate_chars (d : PyDate) : ∀ c ∈ formatDate d, c ∈ dateChars := by
  intro c hc
  simp only [formatDate, pad4, pad2, List.cons_append, List.nil_append, List.mem_cons,
    List.mem_append] at hc
  rcases hc with h | h | h | h | h | h | h | h | h | h | h
  all_goals first
  | (rw [h]; exact digitChar_mem_dateChars _ (Nat.mod_lt _ (by omega)))
  | (rw [h]; decide)
  | (simp at h)

theorem dateChars_not_special (c : Char) (h : c ∈ dateChars) :
    isBracket c = false ∧ isPySpace c = false ∧ c ≠ ':' ∧ c ≠ '\n' ∧ c ≠ 't' ∧
      c ≠ ']' ∧ c ≠ '[' := by
  fin_cases h <;> exact ⟨rfl, rfl, by decide, by decide, by decide, by decide, by decide⟩

theorem formatDate_no_rb (d : PyDate) : ']' ∉ formatDate d := by
  intro hm
  have h := dateChars_not_special _ (formatDate_chars d _ hm)
  simp at h

theorem formatDate_no_nl (d : PyDate) : '\n' ∉ formatDate d := by
  intro hm
  have h := dateChars_not_special _ (formatDate_chars d _ hm)
  simp at h

theorem formatDate_no_colon (d : PyDate) : ':' ∉ formatDate d := by
  intro hm
  have h := dateChars_not_special _ (formatDate_chars d _ hm)
  simp at h

theorem formatDate_no_t (d : PyDate) : 't' ∉ formatDate d := by
  intro hm
  have h := dateChars_not_special _ (formatDate_chars d _ hm)
  simp at h

theorem formatDate_no_space (d : PyDate) : ∀ c ∈ formatDate d, isPySpace c = false :=
  fun c hc => (dateChars_not_special c (formatDate_chars d c hc)).2.1

theorem formatDate_no_bracket (d : PyDate) : ∀ c ∈ formatDate d, isBracket c = false :=
  fun c hc => (dateChars_not_special c (formatDate_chars d c hc)).1

/-! ## The value extracted from an annotation line -/

theorem stripBrackets_annot_line (x y z : Char) (w : Str)
    (hx : isBracket x = false) (hw1 : ']' ∉ w)
    (hw2 : ∀ c, w.getLast? = some c → c ≠ '[') :
    stripBrackets ('[' :: x :: y :: z :: ':' :: (w ++ [ ']' ])) = x :: y :: z :: ':' :: w := by
  unfold stripBrackets
  rw [List.dropWhile_cons]
  rw [if_pos (by simp [isBracket])]
  rw [List.dropWhile_cons, if_neg (by simp [hx])]
  have hrev : (x :: y :: z :: ':' :: (w ++ [ ']' ])).reverse
      = ']' :: (w.reverse ++ [':', z, y, x]) := by
    simp
  rw [hrev, List.dropWhile_cons, if_pos (by simp [isBracket])]
  cases hw : w.reverse with
  | nil =>
    have : w = [] := by simpa using congrArg List.reverse hw
    subst this
    simp [List.dropWhile_cons, isBracket]
  | cons c tr =>
    have hcw : c ∈ w := by
      have : c ∈ w.reverse := by simp [hw]
      simpa using this
    have hc1 : c ≠ ']' := fun hh => hw1 (hh ▸ hcw)
    have hc2 : c ≠ '[' := by
      apply hw2
      rw [← List.head?_reverse, hw]
      rfl
    have hcb : isBracket c = false := by
      simp [isBracket, hc1, hc2]
    rw [List.cons_append, List.dropWhile_cons, if_neg (by simp [hcb])]
    have hrev2 : (c :: (tr ++ [':', z, y, x])).reverse
        = x :: y :: z :: ':' :: (c :: tr).reverse := by
      simp
    rw [hrev2, ← hw]
    simp

theorem splitOnChar_colon_annot (x y z : Char) (w : Str)
    (hx : ¬ x = ':') (hy : ¬ y = ':') (hz : ¬ z = ':') (hw : ':' ∉ w) :
    splitOnChar ':' (x :: y :: z :: ':' :: w) = [[x, y, z], w] := by
  simp [splitOnChar, hx, hy, hz, splitOnChar_of_not_mem ':' w hw]

theorem annotValue_line (x y z : Char) (w : Str)
    (hx1 : isBracket x = false) (hx2 : ¬ x = ':') (hy : ¬ y = ':') (hz : ¬ z = ':')
    (hw1 : ']' ∉ w) (hw2 : ∀ c, w.getLast? = some c → c ≠ '[')
    (hw3 : ':' ∉ w) (hw4 : pyStrip w = w) :
    annotValue ('[' :: x :: y :: z :: ':' :: (w ++ [ ']' ])) = w := by
  unfold annotValue
  rw [stripBrackets_annot_line x y z w hx1 hw1 hw2,
    splitOnChar_colon_annot x y z w hx2 hy hz hw3]
  simpa using hw4

theorem annotValue_tag_line (tg : Str) (h : CleanTag tg) :
    annotValue (tag_line_str tg) = tg := by
  obtain ⟨h1, h2, h3, h4, h5⟩ := h
  rw [tag_line_str_expand]
  exact annotValue_line 't' 'a' 'g' tg (by decide) (by decide) (by decide) (by decide)
    h2 (fun c hc => by rw [hc] at h5; simpa using h5) h1 h4

theorem annotValue_due_line (d : PyDate) :
    annotValue (due_line_str d) = formatDate d := by
  rw [due_line_str_expand]
  exact annotValue_line 'd' 'u' 'e' (formatDate d) (by decide) (by decide) (by decide)
    (by decide) (formatDate_no_rb d)
    (fun c hc => by
      intro hh
      have : c ∈ formatDate d := by
        have : c ∈ (formatDate d).reverse := by
          rw [← List.head?_reverse] at hc
          cases hrev : (formatDate d).reverse with
          | nil => rw [hrev] at hc; simp at hc
          | cons a tr =>
            rw [hrev] at hc
            simp at hc
            simp [hrev, hc]
        simpa using this
      have hsp := dateChars_not_special c (formatDate_chars d c this)
      rw [hh] at hsp
      simp at hsp)
    (formatDate_no_colon d)
    (pyStrip_eq_self_of_all _ (formatDate_no_space d))

/-! ## The annotation scans on whole encoded lines -/

theorem tag_re_findall_nil : tag_re_findall [] = [] := by
  simp [tag_re_findall, findallPat]

theorem date_line_re_findall_nil : date_line_re_findall [] = [] := by
  simp [date_line_re_findall, findallPat]

theorem tag_re_findall_tag_line (tg : Str) (h1 : ']' ∉ tg) (h2 : '\n' ∉ tg) :
    tag_re_findall (tag_line_str tg) = [tag_line_str tg] :=
  findallPat_annot_line '[' (lit "tag:") tg h1 h2

theorem date_line_re_findall_due_line (d : PyDate) :
    date_line_re_findall (due_line_str d) = [due_line_str d] :=
  findallPat_annot_line '[' (lit "due:") (formatDate d) (formatDate_no_rb d)
    (formatDate_no_nl d)

theorem containsSub_tag_in_due_line (d : PyDate) :
    containsSub tagPre (due_line_str d) = false := by
  apply containsSub_eq_false_of_missing tagPre _ 't' (by rw [tagPre_eq]; simp)
  rw [due_line_str_expand]
  intro hm
  simp at hm
  exact formatDate_no_t d hm

theorem containsSub_due_in_tag_line (tg : Str) (h : ':' ∉ tg) :
    containsSub duePre (tag_line_str tg) = false := by
  have key : containsSub duePre (tg ++ [ ']' ]) = false := by
    apply containsSub_eq_false_of_missing duePre _ ':' (by rw [duePre_eq]; simp)
    intro hm
    simp at hm
    exact h hm
  rw [tag_line_str_expand]
  simp only [containsSub, key]
  simp [duePre_eq, List.isPrefixOf]

theorem tag_re_findall_due_line (d : PyDate) :
    tag_re_findall (due_line_str d) = [] :=
  findallPat_nil_of_not_contains _ _ (containsSub_tag_in_due_line d)

theorem date_line_re_findall_tag_line (tg : Str) (h : ':' ∉ tg) :
    date_line_re_findall (tag_line_str tg) = [] :=
  findallPat_nil_of_not_contains _ _ (containsSub_due_in_tag_line tg h)

theorem tag_re_match_tag_line (tg : Str) (h1 : ']' ∉ tg) (h2 : '\n' ∉ tg) :
    tag_re_match (tag_line_str tg) = true := by
  rw [tag_re_match, tag_line_str, List.append_assoc]
  exact matchPat_annot_line tagPre tg [] h1 h2

theorem date_line_re_match_due_line (d : PyDate) :
    date_line_re_match (due_line_str d) = true := by
  rw [date_line_re_match, due_line_str, List.append_assoc]
  exact matchPat_annot_line duePre (formatDate d) [] (formatDate_no_rb d)
    (formatDate_no_nl d)

theorem tag_re_match_due_line (d : PyDate) :
    tag_re_match (due_line_str d) = false := by
  rw [tag_re_match, due_line_str_expand]
  exact matchPat_false_of_not_pre _ _ (tagPre_not_prefixOf_due _)

theorem date_line_re_match_tag_line (tg : Str) :
    date_line_re_match (tag_line_str tg) = false := by
  rw [date_line_re_match, tag_line_str_expand]
  exact matchPat_false_of_not_pre _ _ (duePre_not_prefixOf_tag _)

theorem matchPat_false_of_not_contains (pre l : Str) (h : containsSub pre l = false) :
    matchPat pre l = false := by
  cases hm : pre.isPrefixOf l with
  | false => exact matchPat_false_of_not_pre _ _ hm
  | true =>
    have : containsSub pre l = true :=
      (containsSub_characterization _ _).mpr (List.isPrefixOf_iff_prefix.mp hm).isInfix
    rw [this] at h
    simp at h

theorem findallPat_nil_of_within (pre body l : Str)
    (hb : containsSub pre body = false) (hl : l <:+: body) :
    findallPat pre l = [] :=
  findallPat_nil_of_not_contains _ _ (containsSub_false_of_within pre body l hb hl)

theorem matchPat_false_of_within (pre body l : Str)
    (hb : containsSub pre body = false) (hl : l <:+: body) :
    matchPat pre l = false :=
  matchPat_false_of_not_contains _ _ (containsSub_false_of_within pre body l hb hl)

/-! ## The exact layout produced by `to_file` -/

theorem create_tag_lines_some (ts : List Str) (h : ts ≠ []) :
    create_tag_lines_str (some ts) = some (joinLines (ts.map tag_line_str)) := by
  cases ts with
  | nil => exact absurd rfl h
  | cons a as => rfl

theorem create_tag_lines_falsy (tags : Option (List Str))
    (h : tags = none ∨ tags = some []) : create_tag_lines_str tags = none := by
  rcases h with h | h <;> rw [h] <;> rfl

theorem due_line_str_ne_nil (d : PyDate) : due_line_str d ≠ [] := by
  rw [due_line_str_expand]
  simp

theorem add_date_line_some (t : Task) (d : PyDate) (hd : t.due_date = some d) :
    add_date_line_to_task_content t none = due_line_str d ++ lit "\n\n" ++ t.content := by
  unfold add_date_line_to_task_content create_date_line_str
  rw [hd]

theorem add_date_line_none (t : Task) (hd : t.due_date = none) :
    add_date_line_to_task_content t none = t.content := by
  unfold add_date_line_to_task_content create_date_line_str
  rw [hd]

theorem to_file_content_both (t : Task) (ts : List Str) (d : PyDate)
    (hts : t.tags = some ts) (hne : ts ≠ []) (hd : t.due_date = some d) :
    to_file_content t
      = joinLines (ts.map tag_line_str) ++ lit "\n\n"
          ++ (due_line_str d ++ lit "\n\n" ++ t.content) := by
  have h1 := add_date_line_some t d hd
  have h2 : due_line_str d ++ lit "\n\n" ++ t.content ≠ [] := by
    rw [due_line_str_expand]
    simp
  unfold to_file_content add_tag_lines_to_task_content
  rw [h1, hts, create_tag_lines_some ts hne]
  simp [h2]
  intro hfalse
  exact absurd hfalse (due_line_str_ne_nil d)

theorem to_file_content_due_only (t : Task) (d : PyDate)
    (hts : t.tags = none ∨ t.tags = some []) (hd : t.due_date = some d) :
    to_file_content t = due_line_str d ++ lit "\n\n" ++ t.content := by
  have h1 := add_date_line_some t d hd
  have h2 : due_line_str d ++ lit "\n\n" ++ t.content ≠ [] := by
    rw [due_line_str_expand]
    simp
  unfold to_file_content add_tag_lines_to_task_content
  rw [h1, create_tag_lines_falsy t.tags hts]
  simp [h2]
  intro hfalse
  exact absurd hfalse (due_line_str_ne_nil d)

theorem to_file_content_tags_only (t : Task) (ts : List Str)
    (hts : t.tags = some ts) (hne : ts ≠ []) (hd : t.due_date = none) :
    to_file_content t = joinLines (ts.map tag_line_str) ++ lit "\n\n" ++ t.content := by
  have h1 := add_date_line_none t hd
  unfold to_file_content add_tag_lines_to_task_content
  rw [h1, hts, create_tag_lines_some ts hne]
  by_cases hc : t.content = [] <;> simp [hc]

theorem to_file_content_plain (t : Task)
    (hts : t.tags = none ∨ t.tags = some []) (hd : t.due_date = none) :
    to_file_content t = t.content := by
  have h1 := add_date_line_none t hd
  unfold to_file_content add_tag_lines_to_task_content
  rw [h1, create_tag_lines_falsy t.tags hts]
  by_cases hc : t.content = [] <;> simp [hc]

/-! ## `strptime` inverts `strftime` on valid dates -/

theorem digitVal_digitChar (n : Nat) (h : n < 10) : digitVal (digitChar n) = some n := by
  interval_cases n <;> decide

theorem daysInMonth_le (y m : Nat) : daysInMonth y m ≤ 31 := by
  unfold daysInMonth
  split_ifs <;> omega

theorem parseDay_pad2 (dd : Nat) (h1 : 1 ≤ dd) (h2 : dd ≤ 31) :
    parseDay (pad2 dd) = some dd := by
  interval_cases dd <;> decide

theorem parseMD_pad2 (m dd : Nat) (hm1 : 1 ≤ m) (hm2 : m ≤ 12)
    (hd1 : 1 ≤ dd) (hd2 : dd ≤ 31) :
    parseMD (pad2 m ++ '-' :: pad2 dd) = some (m, dd) := by
  have hday := parseDay_pad2 dd hd1 hd2
  interval_cases m <;>
    (simp [parseMD, pad2, digitChar, digitVal] <;> simpa [pad2, digitChar] using hday)

theorem parse_format (d : PyDate) (h : d.Valid) : parseDate (formatDate d) = some d := by
  obtain ⟨y, m, dd⟩ := d
  obtain ⟨h1, h2, h3, h4, h5, h6⟩ := h
  simp only at h1 h2 h3 h4 h5 h6
  have hd31 : dd ≤ 31 := le_trans h6 (daysInMonth_le y m)
  have hmd := parseMD_pad2 m dd h3 h4 h5 hd31
  show parseDate (pad4 y ++ '-' :: (pad2 m ++ '-' :: pad2 dd)) = some ⟨y, m, dd⟩
  simp only [pad4, List.cons_append, List.nil_append, parseDate]
  rw [digitVal_digitChar _ (Nat.mod_lt _ (by omega)),
    digitVal_digitChar _ (Nat.mod_lt _ (by omega)),
    digitVal_digitChar _ (Nat.mod_lt _ (by omega)),
    digitVal_digitChar _ (Nat.mod_lt _ (by omega))]
  simp only [hmd]
  have hy : 1000 * (y / 1000 % 10) + 100 * (y / 100 % 10) + 10 * (y / 10 % 10) + y % 10
      = y := by omega
  simp only [hy]
  rw [if_pos ⟨h1, h6⟩]

/-! ## Stripping yields infixes; line classes of the encoded text -/

theorem lstrip_isSuffix (s : Str) : lstrip s <:+ s := List.dropWhile_suffix isPySpace

theorem rstrip_isPrefix (s : Str) : rstrip s <+: s := by
  have h := List.dropWhile_suffix (l := s.reverse) isPySpace
  have := List.reverse_prefix.mpr h
  simpa [rstrip] using this

theorem pyStrip_isInfix (s : Str) : pyStrip s <:+: s :=
  ((rstrip_isPrefix (lstrip s)).isInfix).trans (lstrip_isSuffix s).isInfix

theorem lstrip_idem (s : Str) : lstrip (lstrip s) = lstrip s := dropWhile_idem isPySpace s

theorem pyStrip_idem (s : Str) : pyStrip (pyStrip s) = pyStrip s := by
  unfold pyStrip
  rw [lstrip_rstrip_comm, rstrip_idem, lstrip_idem]

theorem pyStrip_lstrip (s : Str) : pyStrip (lstrip s) = pyStrip s := by
  unfold pyStrip
  rw [lstrip_idem]

theorem tag_line_str_no_nl (tg : Str) (h : '\n' ∉ tg) : '\n' ∉ tag_line_str tg := by
  rw [tag_line_str_expand]
  simp [h]

theorem due_line_str_no_nl (d : PyDate) : '\n' ∉ due_line_str d := by
  rw [due_line_str_expand]
  simp [formatDate_no_nl d]

theorem due_line_str_no_space (d : PyDate) : ∀ c ∈ due_line_str d, isPySpace c = false := by
  intro c hc
  rw [due_line_str_expand] at hc
  simp only [List.mem_cons, List.mem_append, List.mem_singleton] at hc
  rcases hc with h | h | h | h | h | h | h
  · subst h; decide
  · subst h; decide
  · subst h; decide
  · subst h; decide
  · subst h; decide
  · exact (dateChars_not_special c (formatDate_chars d c h)).2.1
  · rcases h with h | h
    · subst h; decide
    · simp at h

/-- All four line-classification facts for a line lying inside a body that
contains no annotation prefix. -/
theorem body_line_facts (body l : Str)
    (hb1 : containsSub tagPre body = false) (hb2 : containsSub duePre body = false)
    (hl : l <:+: body) :
    tag_re_findall l = [] ∧ date_line_re_findall l = [] ∧
      tag_re_match l = false ∧ date_line_re_match l = false :=
  ⟨findallPat_nil_of_within _ body l hb1 hl, findallPat_nil_of_within _ body l hb2 hl,
    matchPat_false_of_within _ body l hb1 hl, matchPat_false_of_within _ body l hb2 hl⟩

/-! ## The extraction loops on line lists -/

theorem concatMap_append (f : α → List β) (a b : List α) :
    concatMap f (a ++ b) = concatMap f a ++ concatMap f b := by
  induction a with
  | nil => rfl
  | cons x xs ih => simp [concatMap, ih]

theorem concatMap_eq_nil_of_all (f : α → List β) (L : List α)
    (h : ∀ x ∈ L, f x = []) : concatMap f L = [] := by
  induction L with
  | nil => rfl
  | cons x xs ih =>
    simp [concatMap, h x (by simp), ih (fun a ha => h a (by simp [ha]))]

theorem concatMap_tag_extract (ts : List Str) (h : ∀ tg ∈ ts, CleanTag tg) :
    concatMap (fun l => (tag_re_findall l).map annotValue) (ts.map tag_line_str) = ts := by
  induction ts with
  | nil => rfl
  | cons tg tgs ih =>
    have hc := h tg (by simp)
    simp only [List.map_cons, concatMap]
    rw [tag_re_findall_tag_line tg hc.2.1 hc.2.2.1]
    simp only [List.map_cons, List.map_nil]
    rw [annotValue_tag_line tg hc]
    simp [ih (fun a ha => h a (by simp [ha]))]

theorem foldl_due_skip (L : List Str) (acc : Option PyDate)
    (h : ∀ l ∈ L, date_line_re_findall l = []) :
    L.foldl due_step acc = acc := by
  induction L generalizing acc with
  | nil => rfl
  | cons l ls ih =>
    simp only [List.foldl_cons]
    rw [show due_step acc l = acc by simp [due_step, h l (by simp)]]
    exact ih acc (fun a ha => h a (by simp [ha]))

theorem due_step_due_line (acc : Option PyDate) (d : PyDate) (h : d.Valid) :
    due_step acc (due_line_str d) = some d := by
  simp [due_step, date_line_re_findall_due_line d, annotValue_due_line d, parse_format d h]

/-! ## The lines of each encoded layout -/

theorem splitLines_tag_block (ts : List Str) (x : Str)
    (h : ∀ tg ∈ ts, '\n' ∉ tg) (hne : ts ≠ []) :
    splitLines (joinLines (ts.map tag_line_str) ++ lit "\n\n" ++ x)
      = ts.map tag_line_str ++ [] :: splitLines x := by
  have hlines : ∀ l ∈ ts.map tag_line_str, '\n' ∉ l := by
    intro l hl
    rcases List.mem_map.mp hl with ⟨tg, htg, rfl⟩
    exact tag_line_str_no_nl tg (h tg htg)
  have hmapne : ts.map tag_line_str ≠ [] := by simp [hne]
  rw [List.append_assoc, show lit "\n\n" ++ x = '\n' :: ('\n' :: x) from rfl]
  rw [splitLines_append_join _ ('\n' :: x) hlines hmapne, splitLines_cons_nl]

theorem splitLines_due_first (d : PyDate) (x : Str) :
    splitLines (due_line_str d ++ lit "\n\n" ++ x)
      = due_line_str d :: [] :: splitLines x := by
  rw [List.append_assoc, show lit "\n\n" ++ x = '\n' :: ('\n' :: x) from rfl]
  show splitOnChar '\n' (due_line_str d ++ '\n' :: ('\n' :: x)) = _
  rw [splitOnChar_append_sep '\n' _ _ (due_line_str_no_nl d)]
  rfl

theorem joinLines_nil_cons (L : List Str) (h : L ≠ []) :
    joinLines ([] :: L) = '\n' :: joinLines L := by
  cases L with
  | nil => exact absurd rfl h
  | cons a as => rfl

/-! ## The two content-scrubbing passes on each layout -/

theorem remove_tags_block (ts : List Str) (x : Str)
    (hts : ∀ tg ∈ ts, CleanTag tg) (hne : ts ≠ [])
    (hx : ∀ l ∈ splitLines x, tag_re_match l = false) :
    remove_tags_from_content (joinLines (ts.map tag_line_str) ++ lit "\n\n" ++ x)
      = pyStrip x := by
  unfold remove_tags_from_content
  rw [show splitLines (joinLines (List.map tag_line_str ts) ++ lit "\n\n" ++ x)
      = ts.map tag_line_str ++ [] :: splitLines x from
    splitLines_tag_block ts x (fun tg htg => (hts tg htg).2.2.1) hne]
  rw [List.filter_append]
  have h1 : (ts.map tag_line_str).filter (fun l => !tag_re_match l) = [] := by
    rw [List.filter_eq_nil_iff]
    intro a ha
    rcases List.mem_map.mp ha with ⟨tg, htg, rfl⟩
    have hc := hts tg htg
    simp [tag_re_match_tag_line tg hc.2.1 hc.2.2.1]
  have h2 : ([] :: splitLines x).filter (fun l => !tag_re_match l) = [] :: splitLines x := by
    rw [List.filter_eq_self]
    intro a ha
    rcases List.mem_cons.mp ha with ha | ha
    · simp [ha, tag_re_match_nil]
    · simp [hx a ha]
  rw [h1, h2, List.nil_append,
    joinLines_nil_cons _ (show splitLines x ≠ [] from splitOnChar_ne_nil '\n' x),
    joinLines_splitLines]
  exact pyStrip_cons_space x (by decide)

theorem remove_tags_due_first (d : PyDate) (x : Str)
    (hx : ∀ l ∈ splitLines x, tag_re_match l = false) :
    remove_tags_from_content (due_line_str d ++ lit "\n\n" ++ x)
      = pyStrip (due_line_str d ++ lit "\n\n" ++ x) := by
  unfold remove_tags_from_content
  rw [splitLines_due_first d x]
  have h2 : (due_line_str d :: [] :: splitLines x).filter (fun l => !tag_re_match l)
      = due_line_str d :: [] :: splitLines x := by
    rw [List.filter_eq_self]
    intro a ha
    rcases List.mem_cons.mp ha with ha | ha
    · simp [ha, tag_re_match_due_line d]
    · rcases List.mem_cons.mp ha with ha | ha
      · simp [ha, tag_re_match_nil]
      · simp [hx a ha]
  rw [h2, ← splitLines_due_first d x, joinLines_splitLines]

theorem remove_tags_plain (x : Str)
    (hx : ∀ l ∈ splitLines x, tag_re_match l = false) :
    remove_tags_from_content x = pyStrip x := by
  unfold remove_tags_from_content
  rw [List.filter_eq_self.mpr (fun a ha => by simp [hx a ha]), joinLines_splitLines]

theorem pyStrip_due_first (d : PyDate) (x : Str) :
    pyStrip (due_line_str d ++ lit "\n\n" ++ x)
      = if rstrip x = [] then due_line_str d
        else due_line_str d ++ lit "\n\n" ++ rstrip x := by
  have hd : rstrip (lit "\n\n" ++ x)
      = if rstrip x = [] then [] else lit "\n\n" ++ rstrip x := by
    rw [rstrip_append]
    by_cases h : rstrip x = []
    · simp [h]
      decide
    · simp [h]
  have hkeep : pyStrip (due_line_str d ++ lit "\n\n" ++ x)
      = rstrip (due_line_str d ++ (lit "\n\n" ++ x)) := by
    rw [due_line_str_expand, List.cons_append]
    exact pyStrip_cons_keep _ (by decide)
  rw [hkeep, rstrip_append, hd]
  by_cases h : rstrip x = []
  · simp [h]
    exact rstrip_eq_self_of_all _ (due_line_str_no_space d)
  · have hne : lit "\n\n" ++ rstrip x ≠ [] := by simp [lit]
    simp [h, hne]

theorem remove_date_due_first (d : PyDate) (w : Str)
    (hw : ∀ l ∈ splitLines w, date_line_re_match l = false) :
    remove_date_line_from_content (due_line_str d ++ lit "\n\n" ++ w) = '\n' :: w := by
  unfold remove_date_line_from_content
  rw [splitLines_due_first d w]
  have h2 : (due_line_str d :: [] :: splitLines w).filter (fun l => !date_line_re_match l)
      = [] :: splitLines w := by
    rw [List.filter_cons_of_neg (by simp [date_line_re_match_due_line d])]
    rw [List.filter_eq_self]
    intro a ha
    rcases List.mem_cons.mp ha with ha | ha
    · simp [ha, date_line_re_match_nil]
    · simp [hw a ha]
  rw [h2, joinLines_nil_cons _ (show splitLines w ≠ [] from splitOnChar_ne_nil '\n' w),
    joinLines_splitLines]

theorem remove_date_single_due (d : PyDate) :
    remove_date_line_from_content (due_line_str d) = [] := by
  unfold remove_date_line_from_content
  rw [show splitLines (due_line_str d) = [due_line_str d] from
    splitOnChar_of_not_mem '\n' _ (due_line_str_no_nl d)]
  rw [List.filter_cons_of_neg (by simp [date_line_re_match_due_line d])]
  rfl

theorem remove_date_id (c : Str)
    (h : ∀ l ∈ splitLines c, date_line_re_match l = false) :
    remove_date_line_from_content c = c := by
  unfold remove_date_line_from_content
  rw [List.filter_eq_self.mpr (fun a ha => by simp [h a ha]), joinLines_splitLines]

/-- Every line of a string lying inside a clean body is itself clean. -/
theorem lines_facts_of_within (body w : Str)
    (hb1 : containsSub tagPre body = false) (hb2 : containsSub duePre body = false)
    (hw : w <:+: body) :
    ∀ l ∈ splitLines w,
      tag_re_findall l = [] ∧ date_line_re_findall l = [] ∧
        tag_re_match l = false ∧ date_line_re_match l = false :=
  fun l hl =>
    body_line_facts body l hb1 hb2 ((mem_splitOnChar_within '\n' w l hl).trans hw)

/-! ## The two extraction loops on each layout -/

theorem extract_tags_tag_block (ts : List Str) (x : Str)
    (hts : ∀ tg ∈ ts, CleanTag tg) (hne : ts ≠ []) :
    extract_tags (joinLines (ts.map tag_line_str) ++ lit "\n\n" ++ x)
      = ts ++ extract_tags x := by
  unfold extract_tags
  rw [splitLines_tag_block ts x (fun tg htg => (hts tg htg).2.2.1) hne]
  rw [concatMap_append, concatMap_tag_extract ts hts]
  simp [concatMap, tag_re_findall_nil]

theorem extract_tags_due_first (d : PyDate) (x : Str) :
    extract_tags (due_line_str d ++ lit "\n\n" ++ x) = extract_tags x := by
  unfold extract_tags
  rw [splitLines_due_first d x]
  simp [concatMap, tag_re_findall_due_line d, tag_re_findall_nil]

theorem extract_tags_clean (body : Str) (hb1 : containsSub tagPre body = false) :
    extract_tags body = [] := by
  unfold extract_tags
  apply concatMap_eq_nil_of_all
  intro l hl
  rw [show tag_re_findall l = [] from
    findallPat_nil_of_within tagPre body l hb1 (mem_splitOnChar_within '\n' body l hl)]
  rfl

theorem extract_due_tag_block (ts : List Str) (x : Str)
    (hts : ∀ tg ∈ ts, CleanTag tg) (hne : ts ≠ []) :
    extract_due (joinLines (ts.map tag_line_str) ++ lit "\n\n" ++ x)
      = extract_due x := by
  unfold extract_due
  rw [splitLines_tag_block ts x (fun tg htg => (hts tg htg).2.2.1) hne]
  rw [List.foldl_append]
  rw [foldl_due_skip (ts.map tag_line_str) none (by
    intro l hl
    rcases List.mem_map.mp hl with ⟨tg, htg, rfl⟩
    exact date_line_re_findall_tag_line tg (hts tg htg).1)]
  simp [List.foldl_cons, due_step, date_line_re_findall_nil]

theorem extract_due_due_first (d : PyDate) (x : Str) (hval : d.Valid)
    (hx : ∀ l ∈ splitLines x, date_line_re_findall l = []) :
    extract_due (due_line_str d ++ lit "\n\n" ++ x) = some d := by
  unfold extract_due
  rw [splitLines_due_first d x]
  simp only [List.foldl_cons]
  rw [due_step_due_line none d hval]
  rw [show due_step (some d) [] = some d by simp [due_step, date_line_re_findall_nil]]
  exact foldl_due_skip _ _ hx

theorem extract_due_clean (body : Str) (hb2 : containsSub duePre body = false) :
    extract_due body = none := by
  unfold extract_due
  apply foldl_due_skip
  intro l hl
  exact findallPat_nil_of_within duePre body l hb2 (mem_splitOnChar_within '\n' body l hl)

/-! ## Composite decode of a due-line-headed text -/

theorem strip_decode_due_first (d : PyDate) (body : Str)
    (hb1 : containsSub tagPre body = false) (hb2 : containsSub duePre body = false) :
    pyStrip (remove_date_line_from_content (pyStrip (due_line_str d ++ lit "\n\n" ++ body)))
      = pyStrip body := by
  rw [pyStrip_due_first d body]
  by_cases h : rstrip body = []
  · rw [if_pos h, remove_date_single_due d, pyStrip_eq_nil_of_rstrip body h]
    rfl
  · rw [if_neg h]
    rw [remove_date_due_first d (rstrip body) (fun l hl =>
      (lines_facts_of_within body (rstrip body) hb1 hb2
        (rstrip_isPrefix body).isInfix l hl).2.2.2)]
    rw [pyStrip_cons_space (rstrip body) (by decide), pyStrip_rstrip]

theorem tag_match_false_due_first_lines (d : PyDate) (body : Str)
    (hb1 : containsSub tagPre body = false) (hb2 : containsSub duePre body = false) :
    ∀ l ∈ splitLines (due_line_str d ++ lit "\n\n" ++ body), tag_re_match l = false := by
  intro l hl
  rw [splitLines_due_first d body] at hl
  rcases List.mem_cons.mp hl with h | hl
  · rw [h]
    exact tag_re_match_due_line d
  rcases List.mem_cons.mp hl with h | hl
  · rw [h]
    exact tag_re_match_nil
  · exact (body_line_facts body l hb1 hb2 (mem_splitOnChar_within '\n' body l hl)).2.2.1

/-- **C1 (amended).** Round-trip of the codec: encoding any clean body, clean
tag list and valid due date through the composition used by `to_file`, then
decoding with the extraction used by `from_file`, returns exactly the tags and
the due date, and returns the body up to leading/trailing whitespace trimming
(both sides compared after a trim; when a due line was present the decoded
body keeps a leading newline, which the trim absorbs). -/
theorem claim1_round_trip (ti la : Str) (pa : Option Str) (body : Str) (ts : List Str)
    (dt : Option PyDate)
    (hb1 : containsSub tagPre body = false) (hb2 : containsSub duePre body = false)
    (hts : ∀ tg ∈ ts, CleanTag tg)
    (hdt : ∀ d, dt = some d → d.Valid) :
    extract_tags (to_file_content ⟨ti, body, la, pa, some ts, dt⟩) = ts ∧
    extract_due (to_file_content ⟨ti, body, la, pa, some ts, dt⟩) = dt ∧
    pyStrip (decode_content (to_file_content ⟨ti, body, la, pa, some ts, dt⟩))
      = pyStrip body := by
  have hbody_facts : ∀ l ∈ splitLines body,
      tag_re_findall l = [] ∧ date_line_re_findall l = [] ∧
        tag_re_match l = false ∧ date_line_re_match l = false :=
    fun l hl => body_line_facts body l hb1 hb2 (mem_splitOnChar_within '\n' body l hl)
  have hbody_tag_match : ∀ l ∈ splitLines body, tag_re_match l = false :=
    fun l hl => (hbody_facts l hl).2.2.1
  have hbody_due_findall : ∀ l ∈ splitLines body, date_line_re_findall l = [] :=
    fun l hl => (hbody_facts l hl).2.1
  have hstrip_lines : ∀ l ∈ splitLines (pyStrip body), date_line_re_match l = false :=
    fun l hl =>
      (lines_facts_of_within body (pyStrip body) hb1 hb2 (pyStrip_isInfix body) l hl).2.2.2
  cases dt with
  | none =>
    cases ts with
    | nil =>
      have hl := to_file_content_plain ⟨ti, body, la, pa, some [], none⟩ (Or.inr rfl) rfl
      dsimp only at hl
      rw [hl]
      refine ⟨extract_tags_clean body hb1, extract_due_clean body hb2, ?_⟩
      unfold decode_content
      rw [remove_tags_plain body hbody_tag_match, remove_date_id (pyStrip body) hstrip_lines]
      exact pyStrip_idem body
    | cons tg0 tgs =>
      have hne : tg0 :: tgs ≠ [] := by simp
      have hl := to_file_content_tags_only ⟨ti, body, la, pa, some (tg0 :: tgs), none⟩
        (tg0 :: tgs) rfl hne rfl
      dsimp only at hl
      rw [hl]
      refine ⟨?_, ?_, ?_⟩
      · rw [extract_tags_tag_block _ body hts hne, extract_tags_clean body hb1]
        simp
      · rw [extract_due_tag_block _ body hts hne, extract_due_clean body hb2]
      · unfold decode_content
        rw [remove_tags_block _ body hts hne hbody_tag_match,
          remove_date_id (pyStrip body) hstrip_lines]
        exact pyStrip_idem body
  | some d =>
    have hval : d.Valid := hdt d rfl
    cases ts with
    | nil =>
      have hl := to_file_content_due_only ⟨ti, body, la, pa, some [], some d⟩ d
        (Or.inr rfl) rfl
      dsimp only at hl
      rw [hl]
      refine ⟨?_, ?_, ?_⟩
      · rw [extract_tags_due_first d body, extract_tags_clean body hb1]
      · exact extract_due_due_first d body hval hbody_due_findall
      · unfold decode_content
        rw [remove_tags_due_first d body hbody_tag_match]
        exact strip_decode_due_first d body hb1 hb2
    | cons tg0 tgs =>
      have hne : tg0 :: tgs ≠ [] := by simp
      have hl := to_file_content_both ⟨ti, body, la, pa, some (tg0 :: tgs), some d⟩
        (tg0 :: tgs) d rfl hne rfl
      dsimp only at hl
      rw [hl]
      refine ⟨?_, ?_, ?_⟩
      · rw [extract_tags_tag_block _ _ hts hne, extract_tags_due_first d body,
          extract_tags_clean body hb1]
        simp
      · rw [extract_due_tag_block _ _ hts hne]
        exact extract_due_due_first d body hval hbody_due_findall
      · unfold decode_content
        rw [remove_tags_block _ _ hts hne (tag_match_false_due_first_lines d body hb1 hb2)]
        exact strip_decode_due_first d body hb1 hb2

/-! ## Facts about the split transformer -/

theorem splitOnList_ne_nil (sep : Str) (s : Str) : splitOnList sep s ≠ [] := by
  have key : ∀ (n : Nat) (u : Str), u.length ≤ n → splitOnList sep u ≠ [] := by
    intro n
    induction n with
    | zero =>
      intro u hu
      have : u = [] := by
        cases u with
        | nil => rfl
        | cons a as => simp at hu
      rw [this, splitOnList]
      simp
    | succ m ih =>
      intro u hu
      cases u with
      | nil =>
        rw [splitOnList]
        simp
      | cons c rest =>
        rw [splitOnList]
        by_cases h : sep.isPrefixOf (c :: rest) = true
        · simp [h]
        · rw [if_neg (by simp [h])]
          cases hs : splitOnList sep rest with
          | nil =>
            exact absurd hs (ih rest (by simp at hu; omega))
          | cons a as => simp
  exact key s.length s (le_refl _)

theorem splitOnList_length_eq (sep : Str) (s : Str) :
    (splitOnList sep s).length = countSub sep s + 1 := by
  have key : ∀ (n : Nat) (u : Str), u.length ≤ n →
      (splitOnList sep u).length = countSub sep u + 1 := by
    intro n
    induction n with
    | zero =>
      intro u hu
      have : u = [] := by
        cases u with
        | nil => rfl
        | cons a as => simp at hu
      rw [this, splitOnList, countSub]
      rfl
    | succ m ih =>
      intro u hu
      cases u with
      | nil =>
        rw [splitOnList, countSub]
        rfl
      | cons c rest =>
        rw [splitOnList, countSub]
        by_cases h : sep.isPrefixOf (c :: rest) = true
        · rw [if_pos (by simp [h]), if_pos (by simp [h])]
          have hlen : (rest.drop (sep.length - 1)).length ≤ m := by
            simp at hu
            simp [List.length_drop]
            omega
          simp [ih _ hlen]
        · rw [if_neg (by simp [h]), if_neg (by simp [h])]
          have hlen : rest.length ≤ m := by simp at hu; omega
          cases hs : splitOnList sep rest with
          | nil => exact absurd hs (splitOnList_ne_nil sep rest)
          | cons a as =>
            have := ih rest hlen
            rw [hs] at this
            simp at this ⊢
            omega
  exact key s.length s (le_refl _)

theorem contains_of_countSub_pos (sep s : Str) (h : 1 ≤ countSub sep s) :
    containsSub sep s = true := by
  induction s with
  | nil => rw [countSub] at h; omega
  | cons c rest ih =>
    rw [countSub] at h
    rw [containsSub]
    by_cases hp : sep.isPrefixOf (c :: rest) = true
    · simp [hp]
    · rw [if_neg (by simp [hp])] at h
      simp [hp, ih h]

theorem enumFrom_length (k : Nat) (l : List α) : (enumFrom k l).length = l.length := by
  induction l generalizing k with
  | nil => rfl
  | cons a as ih => simp [enumFrom, ih]

theorem enumFrom_get? (l : List α) (k i : Nat) :
    (enumFrom k l).get? i = (l.get? i).map (fun a => (k + i, a)) := by
  induction l generalizing k i with
  | nil => simp [enumFrom]
  | cons a as ih =>
    cases i with
    | zero => simp [enumFrom]
    | succ j =>
      simp only [enumFrom, List.get?_cons_succ]
      rw [ih (k + 1) j]
      cases as.get? j with
      | none => rfl
      | some b =>
        simp
        omega

theorem get_map_my (f : α → β) (L : List α) (i : Nat) (hi : i < (L.map f).length) :
    (L.map f).get ⟨i, hi⟩ = f (L.get ⟨i, by simpa using hi⟩) := by
  simp [List.get_eq_getElem, List.getElem_map]

theorem enumFrom_get (k : Nat) (L : List α) (i : Nat) (h1 : i < (enumFrom k L).length)
    (h2 : i < L.length) :
    (enumFrom k L).get ⟨i, h1⟩ = (k + i, L.get ⟨i, h2⟩) := by
  have hq := enumFrom_get? L k i
  rw [List.get?_eq_get h1, List.get?_eq_get h2] at hq
  simpa using hq

theorem split_eq_some (t : Task) (p : Str)
    (hm : containsSub splitMarkerStr t.content = true) (hp : t.path = some p) :
    t.split = some ((enumFrom 1 (splitOnList splitMarkerStr t.content)).map (fun ip =>
      { title := natStr ip.1 ++ '-' :: t.title
        content := pyStrip ip.2
        lane := t.lane
        path := some (childPath p (natStr ip.1 ++ '-' :: t.title ++ lit ".md"))
        tags := some ((match t.tags with
          | some ts => ts
          | none => []) ++ [lit "multi-story feature"])
        due_date := t.due_date })) := by
  unfold Task.split
  rw [if_pos (by rw [hm]), hp]

/-- **C3.** Split postcondition on count, titles and segments: a task whose
content has exactly `k ≥ 1` marker occurrences (and which has a storage path,
cf. C10) splits into `k + 1` tasks in segment order, the `i`-th (0-based here,
so titled `(i+1)-title`) carrying the `i`-th segment trimmed; empty segments
at the ends are still counted, since the length is `k + 1` unconditionally. -/
theorem claim3_split_count_titles (t : Task) (p : Str) (k : Nat)
    (hp : t.path = some p) (hk : countSub splitMarkerStr t.content = k) (hk1 : 1 ≤ k) :
    ∃ l, t.split = some l ∧ l.length = k + 1 ∧
      ∀ i (hi : i < l.length) (hi2 : i < (splitOnList splitMarkerStr t.content).length),
        (l.get ⟨i, hi⟩).title = natStr (i + 1) ++ '-' :: t.title ∧
        (l.get ⟨i, hi⟩).content
          = pyStrip ((splitOnList splitMarkerStr t.content).get ⟨i, hi2⟩) := by
  have hm : containsSub splitMarkerStr t.content = true :=
    contains_of_countSub_pos _ _ (by rw [hk]; exact hk1)
  refine ⟨_, split_eq_some t p hm hp, ?_, ?_⟩
  · rw [List.length_map, enumFrom_length, splitOnList_length_eq, hk]
  · intro i hi hi2
    rw [get_map_my _ _ i hi]
    rw [enumFrom_get 1 _ i (by simpa [enumFrom_length] using hi2) hi2]
    constructor
    · simp [Nat.add_comm]
    · rfl

theorem countSub_spec_example :
    countSub splitMarkerStr
        (lit "First part[[split]]Second part[[split]]Third part") = 2 := by
  simp [countSub, splitMarkerStr, lit, List.isPrefixOf]

/-- Witness for C3: the spec's own example, three fragments from two markers. -/
theorem claim3_witness :
    countSub splitMarkerStr
        (lit "First part[[split]]Second part[[split]]Third part") = 2 ∧
    ∃ l, Task.split
        (⟨lit "multi-task", lit "First part[[split]]Second part[[split]]Third part",
          lit "todo", some (lit "todo/multi-task.md"), some [lit "split-test"], none⟩ : Task)
        = some l ∧ l.length = 3 := by
  refine ⟨countSub_spec_example, ?_⟩
  obtain ⟨l, h1, h2, _⟩ := claim3_split_count_titles
    (⟨lit "multi-task", lit "First part[[split]]Second part[[split]]Third part",
      lit "todo", some (lit "todo/multi-task.md"), some [lit "split-test"], none⟩ : Task)
    (lit "todo/multi-task.md") 2 rfl countSub_spec_example (by decide)
  exact ⟨l, h1, h2⟩

/-- **C4.** Split fragment metadata: every fragment carries the original tags
(or the empty list when absent) with the fixed tag "multi-story feature"
appended, and inherits the original due date and lane. -/
theorem claim4_split_metadata (t : Task) (p : Str)
    (hm : containsSub splitMarkerStr t.content = true) (hp : t.path = some p) :
    ∃ l, t.split = some l ∧ ∀ frag ∈ l,
      frag.tags = some (t.tags.getD [] ++ [lit "multi-story feature"]) ∧
      frag.due_date = t.due_date ∧ frag.lane = t.lane := by
  refine ⟨_, split_eq_some t p hm hp, ?_⟩
  intro frag hfrag
  rcases List.mem_map.mp hfrag with ⟨ip, _, rfl⟩
  refine ⟨?_, rfl, rfl⟩
  cases ht : t.tags <;> simp [ht]

/-- Witness for C4 at a task with no tags and a due date. -/
theorem claim4_witness :
    ∃ l, Task.split
        (⟨lit "due-split", lit "Part 1[[split]]Part 2", lit "todo",
          some (lit "todo/due-split.md"), none, some ⟨2025, 12, 31⟩⟩ : Task)
        = some l ∧ ∀ frag ∈ l,
      frag.tags = some [lit "multi-story feature"] ∧
      frag.due_date = some ⟨2025, 12, 31⟩ ∧ frag.lane = lit "todo" := by
  obtain ⟨l, h1, h2⟩ := claim4_split_metadata
    (⟨lit "due-split", lit "Part 1[[split]]Part 2", lit "todo",
      some (lit "todo/due-split.md"), none, some ⟨2025, 12, 31⟩⟩ : Task)
    (lit "todo/due-split.md") (by decide) rfl
  exact ⟨l, h1, h2⟩

/-- **C10.** Split is well-defined only with a storage path: on marker-bearing
content it fails (raises, modelled `none`) when `path` is absent and succeeds
when a path is present; `from_dict` always constructs tasks with an absent
path. -/
theorem claim10_split_requires_path (t : Task) (dct : TaskDict) :
    (containsSub splitMarkerStr t.content = true → t.path = none → t.split = none) ∧
    (containsSub splitMarkerStr t.content = true → ∀ p, t.path = some p →
      ∃ l, t.split = some l) ∧
    (∀ tk, from_dict dct = some tk → tk.path = none) := by
  refine ⟨?_, ?_, ?_⟩
  · intro hm hpn
    unfold Task.split
    rw [if_pos (by rw [hm]), hpn]
  · intro hm p hp
    exact ⟨_, split_eq_some t p hm hp⟩
  · intro tk htk
    unfold from_dict at htk
    cases h1 : dct.title with
    | none => rw [h1] at htk; simp at htk
    | some ti =>
      cases h2 : dct.content with
      | none => rw [h1, h2] at htk; simp at htk
      | some co =>
        cases h3 : dct.lane with
        | none => rw [h1, h2, h3] at htk; simp at htk
        | some la =>
          rw [h1, h2, h3] at htk
          simp at htk
          rw [← htk]

/-- Witness for C10: a path-less marker-bearing task built by `from_dict`. -/
theorem claim10_witness :
    Task.split
        (⟨lit "t", lit "a[[split]]b", lit "todo", none, none, none⟩ : Task) = none ∧
    ∀ tk, from_dict
        (⟨some (lit "t"), some (lit "a[[split]]b"), some (lit "todo"), none, none⟩ : TaskDict)
        = some tk → tk.path = none := by
  constructor
  · exact (claim10_split_requires_path
      (⟨lit "t", lit "a[[split]]b", lit "todo", none, none, none⟩ : Task)
      (⟨some (lit "t"), some (lit "a[[split]]b"), some (lit "todo"), none, none⟩ :
        TaskDict)).1 (by decide) rfl
  · exact (claim10_split_requires_path
      (⟨lit "t", lit "a[[split]]b", lit "todo", none, none, none⟩ : Task)
      (⟨some (lit "t"), some (lit "a[[split]]b"), some (lit "todo"), none, none⟩ :
        TaskDict)).2.2

/-- **C1 (counterexample).** The round-trip as originally stated fails for a
tag containing a colon: the extractor `m.strip('[]').split(":")[1].strip()`
keeps only the piece between the first two colons, so the tag `a:b` comes back
as `a`. The body is annotation-free, so this is an instance of the claim. -/
theorem claim1_counterexample :
    extract_tags (to_file_content
        (⟨lit "t", lit "Task body", lit "todo", none, some [lit "a:b"], none⟩ : Task))
      = [lit "a"] ∧ ¬ [lit "a"] = [lit "a:b"] := by
  constructor
  · simp [extract_tags, to_file_content, add_tag_lines_to_task_content,
      add_date_line_to_task_content, create_tag_lines_str, create_date_line_str,
      tag_line_str, joinLines, splitLines, splitOnChar, concatMap, tag_re_findall,
      findallPat, tagPre, duePre, lit, upToRB, annotValue, stripBrackets, pyStrip,
      lstrip, rstrip, isPySpace, isBracket, List.dropWhile, List.isPrefixOf]
  · decide

/-- Witness for C1 at a concrete clean instance. -/
theorem claim1_witness :
    extract_tags (to_file_content (⟨lit "t", lit "Task body", lit "todo", none,
        some [lit "urgent"], some ⟨2025, 12, 31⟩⟩ : Task)) = [lit "urgent"] ∧
    extract_due (to_file_content (⟨lit "t", lit "Task body", lit "todo", none,
        some [lit "urgent"], some ⟨2025, 12, 31⟩⟩ : Task)) = some ⟨2025, 12, 31⟩ ∧
    pyStrip (decode_content (to_file_content (⟨lit "t", lit "Task body", lit "todo", none,
        some [lit "urgent"], some ⟨2025, 12, 31⟩⟩ : Task))) = pyStrip (lit "Task body") :=
  claim1_round_trip (lit "t") (lit "todo") none (lit "Task body") [lit "urgent"]
    (some ⟨2025, 12, 31⟩) (by decide) (by decide) (by decide)
    (fun d h => by injection h with h2; rw [← h2]; decide)

/-- **C2 (code bug).** The in-memory content invariant fails: decoding a file
whose only line is an indented tag annotation extracts the tag (`findall`
scans anywhere in the line) but the removal pass (`match`, anchored) keeps the
line, and the global `strip()` then exposes it as a verbatim annotation line
at the start of the content — contradicting the source's own comment
"Task object always holds content string without tags!". -/
theorem claim2_annotation_line_leaks :
    (from_file (lit " [tag:a]\nTask body") (lit "t") (lit "todo") (lit "todo/t.md")).tags
      = some [lit "a"] ∧
    (from_file (lit " [tag:a]\nTask body") (lit "t") (lit "todo") (lit "todo/t.md")).content
      = lit "[tag:a]\nTask body" ∧
    tag_re_match (lit "[tag:a]") = true := by
  refine ⟨?_, ?_, by decide⟩
  · simp [from_file, extract_tags, splitLines, splitOnChar, concatMap, tag_re_findall,
      findallPat, tagPre, lit, upToRB, annotValue, stripBrackets, pyStrip, lstrip,
      rstrip, isPySpace, isBracket, List.dropWhile, List.isPrefixOf]
  · simp [from_file, decode_content, remove_tags_from_content,
      remove_date_line_from_content, splitLines, splitOnChar, joinLines, tag_re_match,
      date_line_re_match, matchPat, tagPre, duePre, lit, upToRB, pyStrip, lstrip,
      rstrip, isPySpace, List.dropWhile, List.isPrefixOf, List.filter]

/-! ## The statistics scenario of the repository's own test suite -/

theorem from_file_stats_task1 :
    from_file (lit "[due:2025-12-31]\n\nTask 1") (lit "task1") (lit "todo")
        (lit "todo/task1.md")
      = ⟨lit "task1", lit "\nTask 1", lit "todo", some (lit "todo/task1.md"),
          some [], some ⟨2025, 12, 31⟩⟩ := by
  simp [from_file, extract_tags, extract_due, due_step, decode_content,
    remove_tags_from_content, remove_date_line_from_content, splitLines, splitOnChar,
    joinLines, concatMap, tag_re_findall, date_line_re_findall, findallPat,
    tag_re_match, date_line_re_match, matchPat, tagPre, duePre, lit, upToRB,
    annotValue, stripBrackets, pyStrip, lstrip, rstrip, isPySpace, isBracket,
    parseDate, parseMD, parseDay, digitVal, daysInMonth, isLeap,
    List.dropWhile, List.isPrefixOf, List.filter]

theorem from_file_stats_task2 :
    from_file (lit "[due:2025-12-31]\n\nTask 2") (lit "task2") (lit "todo")
        (lit "todo/task2.md")
      = ⟨lit "task2", lit "\nTask 2", lit "todo", some (lit "todo/task2.md"),
          some [], some ⟨2025, 12, 31⟩⟩ := by
  simp [from_file, extract_tags, extract_due, due_step, decode_content,
    remove_tags_from_content, remove_date_line_from_content, splitLines, splitOnChar,
    joinLines, concatMap, tag_re_findall, date_line_re_findall, findallPat,
    tag_re_match, date_line_re_match, matchPat, tagPre, duePre, lit, upToRB,
    annotValue, stripBrackets, pyStrip, lstrip, rstrip, isPySpace, isBracket,
    parseDate, parseMD, parseDay, digitVal, daysInMonth, isLeap,
    List.dropWhile, List.isPrefixOf, List.filter]

theorem from_file_stats_task3 :
    from_file (lit "Task 3 no due date") (lit "task3") (lit "doing")
        (lit "doing/task3.md")
      = ⟨lit "task3", lit "Task 3 no due date", lit "doing", some (lit "doing/task3.md"),
          some [], none⟩ := by
  simp [from_file, extract_tags, extract_due, due_step, decode_content,
    remove_tags_from_content, remove_date_line_from_content, splitLines, splitOnChar,
    joinLines, concatMap, tag_re_findall, date_line_re_findall, findallPat,
    tag_re_match, date_line_re_match, matchPat, tagPre, duePre, lit, upToRB,
    annotValue, stripBrackets, pyStrip, lstrip, rstrip, isPySpace, isBracket,
    List.dropWhile, List.isPrefixOf, List.filter]

/-- **C5 (code bug).** `calculate_statistics` on the scenario of the
repository's own test `test_calculate_statistics_with_due_dates` (two tasks
due 2025-12-31 in lane todo, one task without a due date in lane doing):
the returned dictionary carries exactly `num_lanes`, `tasks_per_lane` and
`tag_counts` — there is no due-date aggregation at all, although the loaded
tasks do carry their due dates, so the test's `stats['due_date_counts']`
lookup raises `KeyError`. -/
theorem claim5_stats_no_due_bucket :
    calculate_statistics
        [(lit "todo",
          [from_file (lit "[due:2025-12-31]\n\nTask 1") (lit "task1") (lit "todo")
              (lit "todo/task1.md"),
           from_file (lit "[due:2025-12-31]\n\nTask 2") (lit "task2") (lit "todo")
              (lit "todo/task2.md")]),
         (lit "doing",
          [from_file (lit "Task 3 no due date") (lit "task3") (lit "doing")
              (lit "doing/task3.md")]),
         (lit "done", [])]
      = some ⟨3, [(lit "todo", 2), (lit "doing", 1), (lit "done", 0)], []⟩ ∧
    (from_file (lit "[due:2025-12-31]\n\nTask 1") (lit "task1") (lit "todo")
        (lit "todo/task1.md")).due_date = some ⟨2025, 12, 31⟩ := by
  rw [from_file_stats_task1, from_file_stats_task2, from_file_stats_task3]
  exact ⟨by decide, by decide⟩

/-- **C6 (amended).** The exact encode layout of `to_file`: the tag lines come
first (joined by single newlines), then — after a blank line — the due-date
line, then a blank line and the body; with only one annotation kind present
that block is emitted alone, and with neither the body is unchanged. -/
theorem claim6_encode_layout (t : Task) :
    (∀ ts d, t.tags = some ts → ts ≠ [] → t.due_date = some d →
      to_file_content t = joinLines (ts.map tag_line_str) ++ lit "\n\n"
        ++ (due_line_str d ++ lit "\n\n" ++ t.content)) ∧
    (∀ d, (t.tags = none ∨ t.tags = some []) → t.due_date = some d →
      to_file_content t = due_line_str d ++ lit "\n\n" ++ t.content) ∧
    (∀ ts, t.tags = some ts → ts ≠ [] → t.due_date = none →
      to_file_content t = joinLines (ts.map tag_line_str) ++ lit "\n\n" ++ t.content) ∧
    ((t.tags = none ∨ t.tags = some []) → t.due_date = none →
      to_file_content t = t.content) :=
  ⟨fun ts d hts hne hd => to_file_content_both t ts d hts hne hd,
   fun d hts hd => to_file_content_due_only t d hts hd,
   fun ts hts hne hd => to_file_content_tags_only t ts hts hne hd,
   fun hts hd => to_file_content_plain t hts hd⟩

/-- **C6 (counterexample).** The claim's ordering — due-date line first, tag
lines after it — is not what the code produces: `to_file` prepends the tag
lines outside the date line, so the tag line comes first. -/
theorem claim6_counterexample :
    to_file_content (⟨lit "x", lit "Task body", lit "todo", none,
        some [lit "t"], some ⟨2025, 12, 31⟩⟩ : Task)
      = lit "[tag:t]\n\n[due:2025-12-31]\n\nTask body" ∧
    ¬ to_file_content (⟨lit "x", lit "Task body", lit "todo", none,
        some [lit "t"], some ⟨2025, 12, 31⟩⟩ : Task)
      = lit "[due:2025-12-31]\n\n[tag:t]\n\nTask body" := by
  constructor <;> decide

/-- Witness for C6 in the both-blocks case. -/
theorem claim6_witness :
    to_file_content (⟨lit "x", lit "B", lit "todo", none,
        some [lit "t1", lit "t2"], some ⟨2025, 1, 5⟩⟩ : Task)
      = joinLines ([lit "t1", lit "t2"].map tag_line_str) ++ lit "\n\n"
        ++ (due_line_str ⟨2025, 1, 5⟩ ++ lit "\n\n" ++ lit "B") :=
  (claim6_encode_layout (⟨lit "x", lit "B", lit "todo", none,
      some [lit "t1", lit "t2"], some ⟨2025, 1, 5⟩⟩ : Task)).1
    [lit "t1", lit "t2"] ⟨2025, 1, 5⟩ rfl (by decide) rfl

/-! ## Structured construction -/

theorem from_dict_none_iff (dct : TaskDict) :
    from_dict dct = none ↔ dct.title = none ∨ dct.content = none ∨ dct.lane = none := by
  unfold from_dict
  cases dct.title <;> cases dct.content <;> cases dct.lane <;> simp

theorem from_dict_fields (dct : TaskDict) (tk : Task) (h : from_dict dct = some tk) :
    tk.tags = dct.tags ∧ tk.path = none ∧
      tk.due_date = (match dct.due_date with
        | some s => parseDate s
        | none => none) := by
  unfold from_dict at h
  cases h1 : dct.title with
  | none => rw [h1] at h; simp at h
  | some ti =>
    cases h2 : dct.content with
    | none => rw [h1, h2] at h; simp at h
    | some co =>
      cases h3 : dct.lane with
      | none => rw [h1, h2, h3] at h; simp at h
      | some la =>
        rw [h1, h2, h3] at h
        simp at h
        rw [← h]
        exact ⟨rfl, rfl, rfl⟩

/-- **C7 (amended).** Decoding raw text in which no tag line matched yields
tags as the (present) empty list, not the absent state; the absent state
arises only from structured construction that does not supply tags. -/
theorem claim7_empty_not_absent (raw ti la pa : Str) (dct : TaskDict)
    (h : ∀ l ∈ splitLines raw, tag_re_findall l = []) :
    (from_file raw ti la pa).tags = some [] ∧
    (dct.tags = none → ∀ tk, from_dict dct = some tk → tk.tags = none) := by
  constructor
  · show some (extract_tags raw) = some []
    rw [show extract_tags raw = [] from by
      unfold extract_tags
      apply concatMap_eq_nil_of_all
      intro l hl
      rw [h l hl]
      rfl]
  · intro htags tk htk
    rw [(from_dict_fields dct tk htk).1, htags]

/-- **C7 (counterexample).** The claim as stated fails: decoding plain text
with no tag lines yields `tags == []`, not the absent `None`. -/
theorem claim7_counterexample :
    (from_file (lit "Task content") (lit "t") (lit "todo") (lit "todo/t.md")).tags
      = some [] ∧
    ¬ (from_file (lit "Task content") (lit "t") (lit "todo") (lit "todo/t.md")).tags
      = none := by
  have h : (from_file (lit "Task content") (lit "t") (lit "todo") (lit "todo/t.md")).tags
      = some [] := by
    simp [from_file, extract_tags, splitLines, splitOnChar, concatMap, tag_re_findall,
      findallPat, tagPre, lit, upToRB, List.isPrefixOf]
  exact ⟨h, by rw [h]; simp⟩

/-- Witness for C7. -/
theorem claim7_witness :
    (from_file (lit "Task content") (lit "tc") (lit "todo") (lit "todo/tc.md")).tags
      = some [] ∧
    ((⟨some (lit "tc"), some (lit "c"), some (lit "todo"), none, none⟩ :
        TaskDict).tags = none →
      ∀ tk, from_dict (⟨some (lit "tc"), some (lit "c"), some (lit "todo"), none,
          none⟩ : TaskDict) = some tk → tk.tags = none) :=
  claim7_empty_not_absent (lit "Task content") (lit "tc") (lit "todo") (lit "todo/tc.md")
    (⟨some (lit "tc"), some (lit "c"), some (lit "todo"), none, none⟩ : TaskDict)
    (by simp [splitLines, splitOnChar, tag_re_findall, findallPat, tagPre, lit,
      upToRB, List.isPrefixOf])

/-- **C8.** `from_dict` fails (returns no Task) iff `title`, `content` or
`lane` is missing; a supplied due-date string that fails to parse yields a
Task with an absent due date, not a failure. -/
theorem claim8_from_dict_failure (dct : TaskDict) :
    (from_dict dct = none ↔ dct.title = none ∨ dct.content = none ∨ dct.lane = none) ∧
    (∀ s tk, dct.due_date = some s → parseDate s = none → from_dict dct = some tk →
      tk.due_date = none) := by
  refine ⟨from_dict_none_iff dct, ?_⟩
  intro s tk hs hps htk
  have hd := (from_dict_fields dct tk htk).2.2
  rw [hs] at hd
  simp only at hd
  rw [hd, hps]

/-- Witness for C8: an invalid due-date string still yields a Task, with an
absent due date; and a record missing `title` yields a failure. -/
theorem claim8_witness :
    parseDate (lit "invalid-date") = none ∧
    from_dict (⟨some (lit "Task"), some (lit "Content"), some (lit "todo"), none,
        some (lit "invalid-date")⟩ : TaskDict) ≠ none ∧
    (∀ tk, from_dict (⟨some (lit "Task"), some (lit "Content"), some (lit "todo"), none,
        some (lit "invalid-date")⟩ : TaskDict) = some tk → tk.due_date = none) ∧
    from_dict (⟨none, some (lit "Content"), some (lit "todo"), none, none⟩ : TaskDict)
      = none := by
  refine ⟨by decide, ?_, ?_, ?_⟩
  · rw [Ne, (claim8_from_dict_failure (⟨some (lit "Task"), some (lit "Content"),
      some (lit "todo"), none, some (lit "invalid-date")⟩ : TaskDict)).1]
    decide
  · intro tk htk
    exact (claim8_from_dict_failure (⟨some (lit "Task"), some (lit "Content"),
      some (lit "todo"), none, some (lit "invalid-date")⟩ : TaskDict)).2
      (lit "invalid-date") tk rfl (by decide) htk
  · rw [(claim8_from_dict_failure (⟨none, some (lit "Content"), some (lit "todo"),
      none, none⟩ : TaskDict)).1]
    decide

/-! ## Malformed due-date annotations -/

theorem foldl_due_failparse (L : List Str) (acc : Option PyDate)
    (h : ∀ l ∈ L, ∀ m ∈ date_line_re_findall l, parseDate (annotValue m) = none) :
    L.foldl due_step acc = acc := by
  induction L generalizing acc with
  | nil => rfl
  | cons l ls ih =>
    simp only [List.foldl_cons]
    have hstep : due_step acc l = acc := by
      unfold due_step
      cases hf : date_line_re_findall l with
      | nil => rfl
      | cons m ms =>
        dsimp only
        rw [h l (by simp) m (by simp [hf])]
    rw [hstep]
    exact ih acc (fun a ha => h a (by simp [ha]))

theorem remove_date_lines_clean (c : Str) :
    ∀ l ∈ splitLines (remove_date_line_from_content c), date_line_re_match l = false := by
  intro l hl
  unfold remove_date_line_from_content at hl
  cases hfil : (splitLines c).filter (fun l => !date_line_re_match l) with
  | nil =>
    rw [hfil] at hl
    simp [joinLines, splitLines, splitOnChar] at hl
    rw [hl]
    exact date_line_re_match_nil
  | cons a as =>
    rw [hfil] at hl
    rw [splitLines_joinLines (a :: as) (by
      intro x hx
      have hx2 : x ∈ (splitLines c).filter (fun l => !date_line_re_match l) := by
        rw [hfil]; exact hx
      exact mem_splitOnChar_not_mem '\n' c x (List.mem_of_mem_filter hx2)) (by simp)] at hl
    have := List.of_mem_filter (p := fun l => !date_line_re_match l) (by rw [hfil]; exact hl)
    simpa using this

/-- **C9 (amended).** Malformed due-date annotations are non-fatal: when every
due-pattern match in the raw text fails to parse, decoding yields an absent
due date, and no line of the decoded content matches the due pattern (the
malformed lines are stripped). In the example
`"[due:invalid-date]\n\nTask content"` the decoded body is
`"\nTask content"` — the line is stripped but a leading newline remains,
since only the tag-removal pass trims. -/
theorem claim9_malformed_due (raw ti la pa : Str)
    (h : ∀ l ∈ splitLines raw, ∀ m ∈ date_line_re_findall l, parseDate (annotValue m) = none) :
    (from_file raw ti la pa).due_date = none ∧
    ∀ l ∈ splitLines (from_file raw ti la pa).content, date_line_re_match l = false := by
  constructor
  · show extract_due raw = none
    unfold extract_due
    exact foldl_due_failparse _ none h
  · intro l hl
    exact remove_date_lines_clean (remove_tags_from_content raw) l hl

/-- **C9 (counterexample).** The claim's example is wrong about the body: the
decoded content is `"\nTask content"`, not `"Task content"` — the malformed
line is removed, but the date-removal pass does not re-strip, so the blank
separator line survives as a leading newline. -/
theorem claim9_counterexample :
    ¬ (from_file (lit "[due:invalid-date]\n\nTask content") (lit "t") (lit "l")
        (lit "p")).content = lit "Task content" ∧
    (from_file (lit "[due:invalid-date]\n\nTask content") (lit "t") (lit "l")
        (lit "p")).content = lit "\nTask content" ∧
    (from_file (lit "[due:invalid-date]\n\nTask content") (lit "t") (lit "l")
        (lit "p")).due_date = none := by
  have hc : (from_file (lit "[due:invalid-date]\n\nTask content") (lit "t") (lit "l")
      (lit "p")).content = lit "\nTask content" := by
    simp [from_file, decode_content, remove_tags_from_content,
      remove_date_line_from_content, splitLines, splitOnChar, joinLines, tag_re_match,
      date_line_re_match, matchPat, tagPre, duePre, lit, upToRB, pyStrip, lstrip,
      rstrip, isPySpace, List.dropWhile, List.isPrefixOf, List.filter]
  have hd : (from_file (lit "[due:invalid-date]\n\nTask content") (lit "t") (lit "l")
      (lit "p")).due_date = none := by
    simp [from_file, extract_due, due_step, splitLines, splitOnChar,
      date_line_re_findall, findallPat, duePre, lit, upToRB, annotValue, stripBrackets,
      pyStrip, lstrip, rstrip, isPySpace, isBracket, parseDate, parseMD, parseDay,
      digitVal, List.dropWhile, List.isPrefixOf]
  exact ⟨by rw [hc]; decide, hc, hd⟩

/-- Witness for C9 at the spec's example input. -/
theorem claim9_witness :
    (from_file (lit "[due:invalid-date]\n\nTask content") (lit "t") (lit "l")
        (lit "p")).due_date = none ∧
    ∀ l ∈ splitLines (from_file (lit "[due:invalid-date]\n\nTask content") (lit "t")
        (lit "l") (lit "p")).content, date_line_re_match l = false :=
  claim9_malformed_due (lit "[due:invalid-date]\n\nTask content") (lit "t") (lit "l")
    (lit "p")
    (by simp [splitLines, splitOnChar, date_line_re_findall, findallPat, duePre, lit,
      upToRB, annotValue, stripBrackets, pyStrip, lstrip, rstrip, isPySpace, isBracket,
      parseDate, parseMD, parseDay, digitVal, List.dropWhile, List.isPrefixOf])

end TaskMd
